import Mathlib

/-!
# uploader: the fetch / hash / relocate pipeline and its HTTP handlers

A shallow embedding of `main.go`.  Go strings are byte sequences, so every
string of the program is a list of bytes.  The library functions that the
program calls (net/url, path, path/filepath, strconv, crypto/sha1, the "%x"
and Fprintln renderings of fmt, http.ServeFile, the scheme check of the
http client) are embedded from their Go implementation and documentation.

The filesystem is an explicit state: the content of every regular file, by
path.  Directories are not part of the state; whether a directory can be
created or a file opened for writing, and every other reason for an I/O
step to fail that the state does not decide (permissions, network, disk),
is given by an environment that the handlers and pipeline stages read.
The embedding follows one request or one job at a time: nothing else
writes to the state while it runs.

Every stage records its I/O steps, in order, in a trace.  A `go f(...)`
statement is recorded as an event, and the started goroutine is run by
`runJob` on the state that the starting goroutine left behind.  The calls
of the process logger (`l.Info`, `l.Error`, ...) do not touch the state and
are left out.
-/

set_option maxRecDepth 100000
set_option maxHeartbeats 1600000

/-! ## Bytes and strings -/

/-- One byte of a Go string. -/
abbrev Byte := Fin 256

/-- A Go string (or byte slice). -/
abbrev Bytes := List Byte

/-- The bytes of an ASCII literal of the source. -/
def ascii (s : String) : Bytes := s.toList.map (fun c => Fin.ofNat c.toNat)

/-- The byte of an ASCII character literal. -/
def chr (c : Char) : Byte := Fin.ofNat c.toNat

namespace strings

/-- The call strings.Replace(s, old, new, -1) for one-byte old and new:
every occurrence of the byte is replaced. -/
def Replace (s : Bytes) (old new : Byte) : Bytes :=
  s.map (fun c => if c = old then new else c)

/-- The call strings.Join(elems, sep). -/
def Join : List Bytes → Bytes → Bytes
  | [], _ => []
  | [a], _ => a
  | a :: b :: rest, sep => a ++ sep ++ Join (b :: rest) sep

/-- The function strings.ToLower on ASCII letters. -/
def ToLower (s : Bytes) : Bytes :=
  s.map (fun c => if chr 'A' ≤ c ∧ c ≤ chr 'Z' then Fin.ofNat (c.val + 32) else c)

/-- The call strings.HasSuffix(s, suffix). -/
def HasSuffix (s suffix : Bytes) : Bool :=
  decide (s.drop (s.length - suffix.length) = suffix ∧ suffix.length ≤ s.length)

end strings

/-! ## net/url: QueryEscape and QueryUnescape -/

namespace url

/-- The function shouldEscape(c, encodeQueryComponent): letters, digits and
the four marks are kept, everything else is escaped. -/
def shouldEscape (c : Byte) : Bool :=
  if (chr 'a' ≤ c ∧ c ≤ chr 'z') ∨ (chr 'A' ≤ c ∧ c ≤ chr 'Z') ∨ (chr '0' ≤ c ∧ c ≤ chr '9') then
    false
  else if c = chr '-' ∨ c = chr '_' ∨ c = chr '.' ∨ c = chr '~' then
    false
  else
    true

/-- The table "0123456789ABCDEF" used by escape. -/
def upperhex : Bytes := ascii "0123456789ABCDEF"

/-- What escape writes for one input byte in mode encodeQueryComponent. -/
def escapeByte (c : Byte) : Bytes :=
  if c = chr ' ' then [chr '+']
  else if shouldEscape c then
    [chr '%', upperhex.getD (c.val / 16) 0, upperhex.getD (c.val % 16) 0]
  else [c]

/-- The function url.QueryEscape. -/
def QueryEscape (s : Bytes) : Bytes := s.flatMap escapeByte

/-- The loop of getscheme at index i, with the bytes read so far. -/
def getschemeLoop (i : Nat) (scheme : Bytes) : Bytes → Except Bytes Bytes
  | [] => .ok []
  | c :: rest =>
    if (chr 'a' ≤ c ∧ c ≤ chr 'z') ∨ (chr 'A' ≤ c ∧ c ≤ chr 'Z') then
      getschemeLoop (i + 1) (scheme ++ [c]) rest
    else if (chr '0' ≤ c ∧ c ≤ chr '9') ∨ c = chr '+' ∨ c = chr '-' ∨ c = chr '.' then
      if i = 0 then .ok [] else getschemeLoop (i + 1) (scheme ++ [c]) rest
    else if c = chr ':' then
      if i = 0 then .error (ascii "missing protocol scheme") else .ok scheme
    else
      -- an invalid character, so there is no valid scheme
      .ok []

/-- The function getscheme of net/url: the scheme of a raw URL (the part
before the first ':' when it is made of letters, digits, '+', '-' and '.'
and starts with a letter), empty when there is none. -/
def getscheme (rawurl : Bytes) : Except Bytes Bytes := getschemeLoop 0 [] rawurl

/-- The function ishex of net/url. -/
def ishex (c : Byte) : Bool :=
  (chr '0' ≤ c ∧ c ≤ chr '9') ∨ (chr 'a' ≤ c ∧ c ≤ chr 'f') ∨ (chr 'A' ≤ c ∧ c ≤ chr 'F')

/-- The function unhex of net/url. -/
def unhex (c : Byte) : Nat :=
  if chr '0' ≤ c ∧ c ≤ chr '9' then c.val - 48
  else if chr 'a' ≤ c ∧ c ≤ chr 'f' then c.val - 97 + 10
  else if chr 'A' ≤ c ∧ c ≤ chr 'F' then c.val - 65 + 10
  else 0

/-- The function url.QueryUnescape: percent-decoding, with '+' read as a
space; a '%' that is not followed by two hex digits is an error. -/
def QueryUnescape : Bytes → Option Bytes
  | [] => some []
  | c :: rest =>
    if c = chr '%' then
      match rest with
      | h1 :: h2 :: rest2 =>
        if ishex h1 ∧ ishex h2 then
          (QueryUnescape rest2).map (fun t => Fin.ofNat (unhex h1 * 16 + unhex h2) :: t)
        else none
      | _ => none
    else if c = chr '+' then
      (QueryUnescape rest).map (fun t => chr ' ' :: t)
    else
      (QueryUnescape rest).map (fun t => c :: t)

end url

/-! ## crypto/sha1 and the "%x" rendering -/

namespace sha1

/-- Rotate a 32-bit word left by n bits. -/
def rotl (x n : Nat) : Nat := ((x <<< n) ||| (x >>> (32 - n))) % 4294967296

/-- The big-endian number of a byte string. -/
def word (b : Bytes) : Nat := b.foldl (fun acc x => acc * 256 + x.val) 0

/-- The first n big-endian 32-bit words of a block. -/
def blockWords : Nat → Bytes → List Nat
  | 0, _ => []
  | n + 1, b => word (b.take 4) :: blockWords n (b.drop 4)

/-- Extends the message schedule by n words, newest word first:
w[i] = rotl(w[i-3] ^ w[i-8] ^ w[i-14] ^ w[i-16], 1). -/
def schedule : Nat → List Nat → List Nat
  | 0, w => w
  | n + 1, w =>
    schedule n (rotl (w.getD 2 0 ^^^ w.getD 7 0 ^^^ w.getD 13 0 ^^^ w.getD 15 0) 1 :: w)

/-- The five chaining words of SHA-1. -/
structure St where
  a : Nat
  b : Nat
  c : Nat
  d : Nat
  e : Nat
deriving DecidableEq

/-- Round i of the compression function on schedule word w. -/
def round (i : Nat) (s : St) (w : Nat) : St :=
  let f :=
    if i < 20 then (s.b &&& s.c) ||| ((s.b ^^^ 4294967295) &&& s.d)
    else if i < 40 then s.b ^^^ s.c ^^^ s.d
    else if i < 60 then ((s.b ||| s.c) &&& s.d) ||| (s.b &&& s.c)
    else s.b ^^^ s.c ^^^ s.d
  let k :=
    if i < 20 then 0x5A827999 else if i < 40 then 0x6ED9EBA1
    else if i < 60 then 0x8F1BBCDC else 0xCA62C1D6
  let t := (rotl s.a 5 + f + s.e + w + k) % 4294967296
  ⟨t, s.a, rotl s.b 30, s.c, s.d⟩

/-- The rounds over the schedule, starting at round i. -/
def rounds : Nat → List Nat → St → St
  | _, [], s => s
  | i, w :: ws, s => rounds (i + 1) ws (round i s w)

/-- The compression of one 64-byte block into the chaining state. -/
def block (h : St) (b : Bytes) : St :=
  let w := (schedule 64 (blockWords 16 b).reverse).reverse
  let s := rounds 0 w h
  ⟨(h.a + s.a) % 4294967296, (h.b + s.b) % 4294967296, (h.c + s.c) % 4294967296,
   (h.d + s.d) % 4294967296, (h.e + s.e) % 4294967296⟩

/-- The compression of n consecutive blocks. -/
def blocks : Nat → St → Bytes → St
  | 0, h, _ => h
  | n + 1, h, p => blocks n (block h (p.take 64)) (p.drop 64)

/-- The n low bytes of x, big-endian. -/
def be (n : Nat) (x : Nat) : Bytes :=
  (List.range n).reverse.map (fun i => Fin.ofNat (x / 256 ^ i))

/-- The padded message: 0x80, zeros up to 56 mod 64, the bit length. -/
def pad (data : Bytes) : Bytes :=
  let len := data.length
  let z := if len % 64 < 56 then 55 - len % 64 else 64 + 55 - len % 64
  data ++ [128] ++ List.replicate z 0 ++ be 8 (len * 8)

/-- The initial chaining state. -/
def init : St := ⟨0x67452301, 0xEFCDAB89, 0x98BADCFE, 0x10325476, 0xC3D2E1F0⟩

/-- The function sha1.Sum: the 20-byte SHA-1 checksum of the data (also
what sha1.New, a copy of the data into it, and Sum(nil) produce). -/
def Sum (data : Bytes) : Bytes :=
  let p := pad data
  let h := blocks (p.length / 64) init p
  be 4 h.a ++ be 4 h.b ++ be 4 h.c ++ be 4 h.d ++ be 4 h.e

end sha1

/-- The digit table of the verb "%x". -/
def lowerhex : Bytes := ascii "0123456789abcdef"

/-- The rendering fmt.Sprintf("%x", b) of a byte string: two lower-case
hex digits per byte. -/
def hex (b : Bytes) : Bytes :=
  b.flatMap (fun c => [lowerhex.getD (c.val / 16) 0, lowerhex.getD (c.val % 16) 0])

/-- The digest string of the program: fmt.Sprintf("%x", sha1.Sum(data)). -/
def digest (data : Bytes) : Bytes := hex (sha1.Sum data)

/-! ## strconv.FormatInt -/

namespace strconv

/-- The decimal digits of n, most significant first, in front of acc. -/
def digits : Nat → Nat → Bytes → Bytes
  | 0, _, acc => acc
  | fuel + 1, n, acc =>
    if n < 10 then Fin.ofNat (48 + n) :: acc
    else digits fuel (n / 10) (Fin.ofNat (48 + n % 10) :: acc)

/-- The call strconv.FormatInt(i, 10). -/
def FormatInt (i : Int) : Bytes :=
  if i < 0 then chr '-' :: digits (i.natAbs + 1) i.natAbs []
  else digits (i.natAbs + 1) i.natAbs []

end strconv

/-! ## path and path/filepath (Unix): Clean and Join -/

namespace path

/-- The separator. -/
def sep : Byte := chr '/'

/-- The backtracking of a ".." element: starting at index w, the write index
moves left while it is above dotdot and the byte under it is not a slash. -/
def backtrack (out : Bytes) (dotdot : Nat) : Nat → Nat
  | 0 => 0
  | w + 1 =>
    if dotdot < w + 1 ∧ out.getD (w + 1) 0 ≠ sep then backtrack out dotdot w else w + 1

/-- The main loop of Clean on the unread input, the output written so far
and the index dotdot; one iteration of the Go loop per unit of fuel. -/
def cleanLoop (rooted : Bool) : Nat → Bytes → Bytes → Nat → Bytes
  | 0, _, out, _ => out
  | _ + 1, [], out, _ => out
  | fuel + 1, c :: rest, out, dotdot =>
    if c = sep then
      -- empty path element
      cleanLoop rooted fuel rest out dotdot
    else if c = chr '.' ∧ (rest = [] ∨ rest.head? = some sep) then
      -- . element
      cleanLoop rooted fuel rest out dotdot
    else if c = chr '.' ∧ rest.head? = some (chr '.') ∧
        (rest.tail = [] ∨ rest.tail.head? = some sep) then
      -- .. element: remove to last separator
      if dotdot < out.length then
        cleanLoop rooted fuel rest.tail (out.take (backtrack out dotdot (out.length - 1))) dotdot
      else if !rooted then
        let out2 := (if 0 < out.length then out ++ [sep] else out) ++ [chr '.', chr '.']
        cleanLoop rooted fuel rest.tail out2 out2.length
      else
        cleanLoop rooted fuel rest.tail out dotdot
    else
      -- real path element: add slash if needed, copy element
      let out2 :=
        if (rooted && out.length != 1) || (!rooted && out.length != 0) then out ++ [sep] else out
      cleanLoop rooted fuel ((c :: rest).dropWhile (fun x => x ≠ sep))
        (out2 ++ (c :: rest).takeWhile (fun x => x ≠ sep)) dotdot

/-- The function Clean of package path (and of path/filepath on Unix). -/
def Clean (p : Bytes) : Bytes :=
  if p = [] then ascii "."
  else
    let rooted := decide (p.head? = some sep)
    let out :=
      if rooted then cleanLoop true p.length p.tail [sep] 1
      else cleanLoop false p.length p [] 0
    if out.length = 0 then ascii "." else out

/-- The function Join of package path (and of path/filepath on Unix): the
elements from the first non-empty one on, joined by slashes and cleaned. -/
def Join : List Bytes → Bytes
  | [] => []
  | e :: rest => if e ≠ [] then Clean (strings.Join (e :: rest) [sep]) else Join rest

end path

namespace filepath

/-- The function filepath.Clean; on Unix the algorithm of path.Clean. -/
abbrev Clean (p : Bytes) : Bytes := path.Clean p

/-- The function filepath.Join; on Unix the algorithm of path.Join. -/
abbrev Join (elem : List Bytes) : Bytes := path.Join elem

end filepath

/-! ## The filesystem and the environment -/

/-- The filesystem state: the content of every regular file, by path. -/
abbrev FS := Bytes → Option Bytes

namespace FS

/-- The state with p holding d. -/
def write (fs : FS) (p d : Bytes) : FS := fun q => if q = p then some d else fs q

/-- The state without a file at p. -/
def remove (fs : FS) (p : Bytes) : FS := fun q => if q = p then none else fs q

/-- The empty filesystem. -/
def empty : FS := fun _ => none

end FS

/-- The text of an *os.PathError for a missing file. -/
def enoent (op p : Bytes) : Bytes := op ++ ascii " " ++ p ++ ascii ": no such file or directory"

/-- Reading a whole file (ioutil.ReadFile, or os.OpenFile read-only and a
copy of the file): the fault of the environment, or the file is missing. -/
def readFile (fs : FS) (p : Bytes) (fault : Option Bytes) : Except Bytes Bytes :=
  match fault with
  | some err => .error err
  | none =>
    match fs p with
    | some d => .ok d
    | none => .error (enoent (ascii "open") p)

/-- The call os.Rename(old, new): the file at old replaces whatever is at
new. -/
def rename (fs : FS) (old new : Bytes) (fault : Option Bytes) : Except Bytes FS :=
  match fault with
  | some err => .error err
  | none =>
    match fs old with
    | some d => .ok (if old = new then fs else (fs.remove old).write new d)
    | none => .error (enoent (ascii "rename") (old ++ ascii " " ++ new))

namespace client

/-- The call client.Get(rawurl) of an http.Client with an http.Transport, as
far as the URL string decides it: the string is parsed again, and a scheme
other than http and https is refused by the transport ("unsupported
protocol scheme"); every other failure of the request is the fault of the
environment. -/
def Get (rawurl : Bytes) (fault : Option Bytes) : Except Bytes Unit :=
  match url.getscheme rawurl with
  | .error err => .error (ascii "parse " ++ rawurl ++ ascii ": " ++ err)
  | .ok scheme =>
    if strings.ToLower scheme ≠ ascii "http" ∧ strings.ToLower scheme ≠ ascii "https" then
      .error (ascii "Get " ++ rawurl ++ ascii ": unsupported protocol scheme \"" ++
        strings.ToLower scheme ++ ascii "\"")
    else
      match fault with
      | some err => .error err
      | none => .ok ()

end client

/-- The environment of one call of downloadLog. -/
structure LogEnv where
  /-- The error of os.MkdirAll(dir), if it fails. -/
  mkdirErr : Option Bytes
  /-- The error of os.OpenFile(log, append), if it fails. -/
  openErr : Option Bytes
  /-- When the write of the line fails (the code does not look at the result
  of fmt.Fprintln): how many bytes of the line reached the file. -/
  writeErr : Option Nat
  /-- The rendering of time.Now(). -/
  now : Bytes

/-- The environment of one execution: what the world outside the filesystem
state decides.  I/O calls and downloadLog calls are named by their line in
main.go. -/
structure Env where
  /-- The error that the I/O call at that line hits for a reason outside
  the state, if any. -/
  fault : Nat → Option Bytes
  /-- The environment of the downloadLog call at that line. -/
  log : Nat → LogEnv
  /-- The response body that the GET request delivers. -/
  body : Bytes
  /-- When the write at that line fails (io.Copy at 279, ioutil.WriteFile at
  166 and 351): how many bytes reached the file, or none when the file was
  not touched. -/
  written : Nat → Option Nat

/-- The goroutines of the pipeline with their arguments. -/
inductive Goroutine
  | loader (linkurl : Bytes) (timestamp : Int)
  | hasher (linkurl : Bytes) (timestamp : Int)
  | mover (linkurl : Bytes) (timestamp : Int) (hash : Bytes)
deriving DecidableEq

/-- The observable steps of an execution, in order. -/
inductive Event
  | mkdirAll (dir : Bytes) (ok : Bool)
  | create (file : Bytes) (ok : Bool)
  | get (linkurl : Bytes) (ok : Bool)
  | copyBody (file : Bytes) (ok : Bool)
  | openFile (file : Bytes) (ok : Bool)
  | hashCopy (file : Bytes) (ok : Bool)
  | rename (old new : Bytes) (ok : Bool)
  | writeFile (file data : Bytes) (ok : Bool)
  | log (message : List Bytes) (written : Bool)
  | go (task : Goroutine)
  | inc (metric : Bytes)
  | dec (metric : Bytes)
deriving DecidableEq

/-- What a goroutine leaves behind: the state, its steps, and the goroutine
it started with a go statement. -/
structure Run where
  fs : FS
  trace : List Event
  next : Option Goroutine

/-- What a handler writes to the http.ResponseWriter. -/
inductive Response
  /-- The call http.Redirect(w, req, target, code). -/
  | redirect (target : Bytes) (code : Nat)
  /-- The bytes written to the body, with status 200. -/
  | body (content : Bytes)
  /-- The call http.Error(w, text, code). -/
  | error (text : Bytes) (code : Nat)
deriving DecidableEq

/-- What a handler leaves behind. -/
structure Reply where
  fs : FS
  trace : List Event
  response : Response
  next : Option Goroutine

/-! ## main.go -/

/-- The constant folder. -/
def folder : Bytes := ascii "files"

/-- The line that fmt.Fprintln(file, time.Now(), " -- ", message) writes:
the operands separated by spaces, the message slice in brackets with its
elements separated by spaces, and a newline. -/
def logLine (now : Bytes) (message : List Bytes) : Bytes :=
  now ++ ascii " " ++ ascii " -- " ++ ascii " " ++
    (ascii "[" ++ strings.Join message (ascii " ") ++ ascii "]") ++ ascii "\n"

/-- The workDir of a job: filepath.Join("files", "tmp", filename). -/
def workDir (filename : Bytes) : Bytes := filepath.Join [ascii "files", ascii "tmp", filename]

/-- The function downloadLog: one open / append / close cycle on
workDir/log; when the directory or the file cannot be opened nothing is
written (the error goes to the process log only).  The flag of the event
tells whether the whole line was appended. -/
def downloadLog (le : LogEnv) (fs : FS) (timestamp : Int) (message : List Bytes) :
    FS × List Event :=
  let filename := strconv.FormatInt timestamp
  let dir := filepath.Join [ascii "files", ascii "tmp", filename]
  let filepath := path.Join [dir, ascii "log"]
  match le.mkdirErr with
  | some _ => (fs, [Event.log message false])
  | none =>
    match le.openErr with
    | some _ => (fs, [Event.log message false])
    | none =>
      match le.writeErr with
      | some n =>
        (fs.write filepath ((fs filepath).getD [] ++ (logLine le.now message).take n),
          [Event.log message false])
      | none =>
        (fs.write filepath ((fs filepath).getD [] ++ logLine le.now message),
          [Event.log message true])

/-- The function loader (the Fetch stage). -/
def loader (env : Env) (fs : FS) (linkurl : Bytes) (timestamp : Int) : Run :=
  let filename := strconv.FormatInt timestamp
  let dir := filepath.Join [ascii "files", ascii "tmp", filename]
  match env.fault 249 with
  | some err =>
    let l := downloadLog (env.log 252) fs timestamp [ascii "can not create dir: ", err]
    ⟨l.1, Event.mkdirAll dir false :: l.2, none⟩
  | none =>
    let path := path.Join [dir, ascii "file"]
    match env.fault 258 with
    | some err =>
      let l := downloadLog (env.log 261) fs timestamp [ascii "can not create tmp file: ", err]
      ⟨l.1, [Event.mkdirAll dir true, Event.create path false] ++ l.2, none⟩
    | none =>
      let fs1 := fs.write path []
      match client.Get linkurl (env.fault 271) with
      | .error err =>
        let l := downloadLog (env.log 274) fs1 timestamp [ascii "can not get from url: ", err]
        ⟨l.1, [Event.mkdirAll dir true, Event.create path true, Event.get linkurl false] ++ l.2,
          none⟩
      | .ok _ =>
        -- _, err = io.Copy(out, resp.Body): err is assigned and never read
        let copy : Bytes × Bool :=
          match env.fault 279 with
          | some _ => (env.body.take ((env.written 279).getD 0), false)
          | none => (env.body, true)
        let fs2 := fs1.write path copy.1
        let l := downloadLog (env.log 281) fs2 timestamp [ascii "Finished loading ", linkurl]
        ⟨l.1, [Event.mkdirAll dir true, Event.create path true, Event.get linkurl true,
            Event.copyBody path copy.2] ++ l.2 ++ [Event.go (Goroutine.hasher linkurl timestamp)],
          some (Goroutine.hasher linkurl timestamp)⟩

/-- The function hasher (the Hash stage). -/
def hasher (env : Env) (fs : FS) (linkurl : Bytes) (timestamp : Int) : Run :=
  let filename := strconv.FormatInt timestamp
  let l0 := downloadLog (env.log 291) fs timestamp [ascii "Hashing ", linkurl]
  let dir := filepath.Join [ascii "files", ascii "tmp", filename]
  let path := filepath.Join [dir, ascii "file"]
  match readFile l0.1 path (env.fault 296) with
  | .error err =>
    let l := downloadLog (env.log 299) l0.1 timestamp [ascii "Can not open file ", err]
    ⟨l.1, l0.2 ++ [Event.openFile path false] ++ l.2, none⟩
  | .ok content =>
    match env.fault 305 with
    | some err =>
      let l := downloadLog (env.log 308) l0.1 timestamp
        [ascii "can not copy file to hasher: ", err]
      ⟨l.1, l0.2 ++ [Event.openFile path true, Event.hashCopy path false] ++ l.2, none⟩
    | none =>
      let hash := hex (sha1.Sum content)
      let l := downloadLog (env.log 314) l0.1 timestamp [ascii "Finished hashing, hash is", hash]
      ⟨l.1, l0.2 ++ [Event.openFile path true, Event.hashCopy path true] ++ l.2 ++
          [Event.go (Goroutine.mover linkurl timestamp hash)],
        some (Goroutine.mover linkurl timestamp hash)⟩

/-- The escaped URL of mover: ':' becomes '-', '/' becomes '_', and the
result goes through url.QueryEscape. -/
def escapedurl (linkurl : Bytes) : Bytes :=
  url.QueryEscape (strings.Replace (strings.Replace linkurl (chr ':') (chr '-')) (chr '/') (chr '_'))

/-- The destination of mover:
filepath.Join(filepath.Join("files", hash), escapedurl). -/
def destination (linkurl hash : Bytes) : Bytes :=
  filepath.Join [filepath.Join [ascii "files", hash], escapedurl linkurl]

/-- The function mover (the Relocate stage). -/
def mover (env : Env) (fs : FS) (linkurl : Bytes) (timestamp : Int) (hash : Bytes) : Run :=
  let filename := strconv.FormatInt timestamp
  let dir := filepath.Join [ascii "files", ascii "tmp", filename]
  let path := filepath.Join [dir, ascii "file"]
  let destdir := filepath.Join [ascii "files", hash]
  let escapedurl := strings.Replace linkurl (chr ':') (chr '-')
  let escapedurl := strings.Replace escapedurl (chr '/') (chr '_')
  let escapedurl := url.QueryEscape escapedurl
  let destination := filepath.Join [destdir, escapedurl]
  let l0 := downloadLog (env.log 334) fs timestamp [ascii "Moving to ", destination]
  match env.fault 336 with
  | some err =>
    let l := downloadLog (env.log 339) l0.1 timestamp [ascii "can not create desintaion dir: ", err]
    ⟨l.1, l0.2 ++ [Event.mkdirAll destdir false] ++ l.2, none⟩
  | none =>
    match rename l0.1 path destination (env.fault 343) with
    | .error err =>
      let l := downloadLog (env.log 346) l0.1 timestamp
        [ascii "can not move file to destination", err]
      ⟨l.1, l0.2 ++ [Event.mkdirAll destdir true, Event.rename path destination false] ++ l.2,
        none⟩
    | .ok fs1 =>
      let statuspath := filepath.Join [dir, ascii "done"]
      match env.fault 351 with
      | some _ =>
        let fs2 :=
          match env.written 351 with
          | some n => fs1.write statuspath (destination.take n)
          | none => fs1
        ⟨fs2, l0.2 ++ [Event.mkdirAll destdir true, Event.rename path destination true,
            Event.writeFile statuspath destination false], none⟩
      | none =>
        let fs2 := fs1.write statuspath destination
        let l := downloadLog (env.log 358) fs2 timestamp [ascii "Finished"]
        ⟨l.1, l0.2 ++ [Event.mkdirAll destdir true, Event.rename path destination true,
            Event.writeFile statuspath destination true] ++ l.2 ++
            [Event.dec (ascii "downloads_active")], none⟩

/-- One goroutine of the pipeline. -/
def runTask (env : Env) (fs : FS) : Goroutine → Run
  | Goroutine.loader u t => loader env fs u t
  | Goroutine.hasher u t => hasher env fs u t
  | Goroutine.mover u t h => mover env fs u t h

/-- The pipeline from a goroutine on: it runs, then the goroutine it
started runs on the state it left, and so on; n bounds the number of
goroutines. -/
def runFrom (env : Env) : Nat → FS → Goroutine → FS × List Event
  | 0, fs, _ => (fs, [])
  | n + 1, fs, task =>
    let r := runTask env fs task
    match r.next with
    | none => (r.fs, r.trace)
    | some t =>
      let rest := runFrom env n r.fs t
      (rest.1, r.trace ++ rest.2)

/-- The whole pipeline of one job, from go loader(linkurl, timestamp): at
most three goroutines run. -/
def runJob (env : Env) (fs : FS) (linkurl : Bytes) (timestamp : Int) : FS × List Event :=
  runFrom env 3 fs (Goroutine.loader linkurl timestamp)

/-- The function download (the submission handler); parsed is the result of
url.Parse(req.FormValue("url")), as the error text or the String() of the
URL, and timestamp is time.Now() in nanoseconds. -/
def download (env : Env) (fs : FS) (parsed : Except Bytes Bytes) (timestamp : Int) : Reply :=
  match parsed with
  | .error err =>
    ⟨fs, [Event.inc (ascii "downloads_active")],
      Response.body (ascii "can not parse url: " ++ ascii " " ++ err ++ ascii "\n"), none⟩
  | .ok linkurl =>
    let l := downloadLog (env.log 209) fs timestamp [ascii "Downloading: ", linkurl]
    let filename := strconv.FormatInt timestamp
    ⟨l.1, [Event.inc (ascii "downloads_active")] ++ l.2 ++
        [Event.go (Goroutine.loader linkurl timestamp), Event.inc (ascii "downloads")],
      Response.redirect (ascii "/loading/" ++ filename) 303,
      some (Goroutine.loader linkurl timestamp)⟩

/-- The function downloadStatus (StatusQuery) for the route variable
timestamp. -/
def downloadStatus (env : Env) (fs : FS) (filename : Bytes) : Response :=
  let dir := filepath.Join [ascii "files", ascii "tmp", filename]
  let statuspath := filepath.Join [dir, ascii "done"]
  match readFile fs statuspath (env.fault 371) with
  | .ok newpath => Response.redirect (ascii "/" ++ newpath) 301
  | .error _ =>
    let filepath := filepath.Join [dir, ascii "log"]
    match readFile fs filepath (env.fault 379) with
    | .ok log => Response.body log
    | .error err =>
      -- fmt.Fprintf(w, "can not open logfile: ", err) and w.Write(nil)
      Response.body (ascii "can not open logfile: %!(EXTRA *os.PathError=" ++ err ++ ascii ")")

/-- The function containsDotDot of net/http: whether an element of the
path, split at '/' and '\\', is "..". -/
def containsDotDot (v : Bytes) : Bool :=
  (v.splitOnP (fun c => c = chr '/' || c = chr '\\')).any (fun ent => ent = ascii "..")

/-- The call http.ServeFile(w, req, name) for a plain GET (no Range and no
conditional headers) of a regular file, as net/http documents it: "ServeFile
will reject requests where r.URL.Path contains a .. path element", and "As
another special case, ServeFile redirects any request where r.URL.Path ends
in /index.html to the same path, without the final index.html"; a file that
cannot be opened is answered with 404; otherwise the content of the file is
the body. -/
def ServeFile (fs : FS) (urlPath name : Bytes) : Response :=
  if containsDotDot urlPath then Response.error (ascii "invalid URL path") 400
  else if strings.HasSuffix urlPath (ascii "/index.html") then
    Response.redirect (ascii "./") 301
  else
    match fs name with
    | some d => Response.body d
    | none => Response.error (ascii "404 page not found") 404

/-- The function files for the request path and the route variables hash
and filename. -/
def files (fs : FS) (urlPath hash filename : Bytes) : Response × List Event :=
  let filepath := path.Join [ascii "files", hash, filename]
  (ServeFile fs urlPath filepath, [Event.inc (ascii "sent")])

/-- The upload request as the handler reads it. -/
structure UploadRequest where
  /-- The result of req.FormFile("file"): the error, or handler.Filename
  and the bytes of the file. -/
  formFile : Except Bytes (Bytes × Bytes)
  /-- The header X-Forwarded-Proto. -/
  proto : Bytes
  /-- The field req.Host. -/
  host : Bytes

/-- The function upload (the direct upload handler). -/
def upload (env : Env) (fs : FS) (req : UploadRequest) : Reply :=
  match req.formFile with
  | .error err =>
    ⟨fs, [Event.inc (ascii "uploads_active")],
      Response.body (ascii "Problem when getting file: " ++ ascii " " ++ err ++ ascii "\n"), none⟩
  | .ok (filename, data) =>
    match env.fault 149 with
    | some err =>
      ⟨fs, [Event.inc (ascii "uploads_active")],
        Response.body (ascii "Problem when reading: " ++ ascii " " ++ err ++ ascii "\n"), none⟩
    | none =>
      let sum := hex (sha1.Sum data)
      let outpath := path.Join [folder, sum]
      match env.fault 158 with
      | some err =>
        ⟨fs, [Event.inc (ascii "uploads_active"), Event.mkdirAll outpath false],
          Response.body (ascii "Problem when mking dir: " ++ ascii " " ++ err ++ ascii "\n"),
          none⟩
      | none =>
        let outfile := path.Join [outpath, filename]
        match env.fault 166 with
        | some err =>
          let fs1 :=
            match env.written 166 with
            | some n => fs.write outfile (data.take n)
            | none => fs
          ⟨fs1, [Event.inc (ascii "uploads_active"), Event.mkdirAll outpath true,
              Event.writeFile outfile data false],
            Response.body (ascii "Problem when writing file: " ++ ascii " " ++ err ++ ascii "\n"),
            none⟩
        | none =>
          let proto := if req.proto = [] then ascii "http" else req.proto
          ⟨fs.write outfile data,
            [Event.inc (ascii "uploads_active"), Event.mkdirAll outpath true,
              Event.writeFile outfile data true, Event.dec (ascii "uploads_active"),
              Event.inc (ascii "uploads")],
            Response.body (proto ++ ascii "://" ++ req.host ++ ascii "/" ++ outfile ++ ascii "\n"),
            none⟩

/-! ## Vocabulary of the statements -/

/-- A path element that Clean copies as it is: not empty, without a slash,
and neither "." nor "..". -/
def Plain (e : Bytes) : Prop :=
  e ≠ [] ∧ path.sep ∉ e ∧ e ≠ ascii "." ∧ e ≠ ascii ".."

instance (e : Bytes) : Decidable (Plain e) := by unfold Plain; infer_instance

/-- What the default case of the loop of Clean leaves in the output after
an element e. -/
def glue (out e : Bytes) : Bytes := (if out.length != 0 then out ++ [path.sep] else out) ++ e

/-- A non-empty string of lower-case hex digits, as "%x" renders a
checksum. -/
def HexString (h : Bytes) : Prop := h ≠ [] ∧ ∀ c ∈ h, c ∈ lowerhex

instance (h : Bytes) : Decidable (HexString h) := by unfold HexString; infer_instance

/-- The path workDir/file of the job with that timestamp, as loader, hasher
and mover compute it. -/
def jobFile (timestamp : Int) : Bytes :=
  filepath.Join [workDir (strconv.FormatInt timestamp), ascii "file"]

/-- The path workDir/log of a job id, as downloadLog and downloadStatus
compute it. -/
def logPath (filename : Bytes) : Bytes := filepath.Join [workDir filename, ascii "log"]

/-- The path workDir/done of a job id, as mover and downloadStatus compute
it. -/
def statusPath (filename : Bytes) : Bytes := filepath.Join [workDir filename, ascii "done"]

/-- The string s occurs in l. -/
def Contains (l s : Bytes) : Prop := List.IsInfix s l

instance (l s : Bytes) : Decidable (Contains l s) := by unfold Contains; infer_instance

/-- The event a happens before the event b in the trace. -/
def Before (a b : Event) (tr : List Event) : Prop :=
  ∃ i j : Nat, i < j ∧ tr[i]? = some a ∧ tr[j]? = some b

/-- The failed steps that the pipeline checks before it moves the payload:
a directory creation, the GET request, opening or hashing the file, the
rename. -/
def stepFailed : Event → Bool
  | Event.mkdirAll _ false => true
  | Event.get _ false => true
  | Event.openFile _ false => true
  | Event.hashCopy _ false => true
  | Event.rename _ _ false => true
  | _ => false

/-- The content of workDir/log of the job with that timestamp (empty when
there is no log). -/
def jobLog (fs : FS) (timestamp : Int) : Bytes :=
  (fs (logPath (strconv.FormatInt timestamp))).getD []

/-- Whether a downloadLog call in that environment appends its line. -/
def LogEnv.ok (le : LogEnv) : Bool :=
  le.mkdirErr.isNone && le.openErr.isNone && le.writeErr.isNone

/-- The trace of a pipeline in which every step up to the rename succeeded:
the steps of loader, hasher and mover in order, for the content that was
hashed; copied tells whether the body copy returned without error, the w
flags whether each log line was appended, and statusOk whether the status
file was written. -/
def successTrace (u : Bytes) (t : Int) (content : Bytes) (copied w1 w2 w3 w4 w5 statusOk : Bool) :
    List Event :=
  [Event.mkdirAll (workDir (strconv.FormatInt t)) true,
    Event.create (jobFile t) true,
    Event.get u true,
    Event.copyBody (jobFile t) copied,
    Event.log [ascii "Finished loading ", u] w1,
    Event.go (Goroutine.hasher u t),
    Event.log [ascii "Hashing ", u] w2,
    Event.openFile (jobFile t) true,
    Event.hashCopy (jobFile t) true,
    Event.log [ascii "Finished hashing, hash is", digest content] w3,
    Event.go (Goroutine.mover u t (digest content)),
    Event.log [ascii "Moving to ", destination u (digest content)] w4,
    Event.mkdirAll (filepath.Join [ascii "files", digest content]) true,
    Event.rename (jobFile t) (destination u (digest content)) true,
    Event.writeFile (statusPath (strconv.FormatInt t)) (destination u (digest content)) statusOk] ++
  (if statusOk then [Event.log [ascii "Finished"] w5, Event.dec (ascii "downloads_active")]
    else [])

/-- An environment without faults, whose GET delivers the body "ABC". -/
def quietEnv : Env :=
  ⟨fun _ => none, fun _ => ⟨none, none, none, ascii "T"⟩, ascii "ABC", fun _ => none⟩

/-- The environment in which the body copy of loader (line 279) breaks off
after one byte of the body "ABC" and nothing else fails. -/
def copyFailEnv : Env :=
  ⟨fun line => if line = 279 then some (ascii "unexpected EOF") else none,
    fun _ => ⟨none, none, none, ascii "T"⟩, ascii "ABC", fun _ => some 1⟩

/-- The environment in which the GET request of loader (line 271) fails. -/
def getFailEnv : Env :=
  ⟨fun line => if line = 271 then some (ascii "timeout") else none,
    fun _ => ⟨none, none, none, ascii "T"⟩, [], fun _ => none⟩

/-- The environment in which the job directory cannot be created when the
submission is logged (line 209). -/
def logFailEnv : Env :=
  ⟨fun _ => none,
    fun line => if line = 209 then ⟨some (ascii "permission denied"), none, none, ascii "T"⟩
      else ⟨none, none, none, ascii "T"⟩,
    ascii "ABC", fun _ => none⟩

/-- The URL of the scenario of the specification. -/
def exampleURL : Bytes := ascii "http://example.com/a.bin"

/-! ## Facts about url.QueryEscape -/

theorem escapeByte_clean : ∀ c : Byte,
    chr ':' ∉ url.escapeByte c ∧ chr '/' ∉ url.escapeByte c := by decide

theorem escapeByte_hex : ∀ c : Byte,
    url.ishex (url.upperhex.getD (c.val / 16) 0) = true ∧
    url.ishex (url.upperhex.getD (c.val % 16) 0) = true ∧
    (Fin.ofNat (url.unhex (url.upperhex.getD (c.val / 16) 0) * 16 +
      url.unhex (url.upperhex.getD (c.val % 16) 0)) : Byte) = c := by decide

theorem shouldEscape_false : ∀ c : Byte,
    url.shouldEscape c = false → c ≠ chr '%' ∧ c ≠ chr '+' := by decide

theorem QueryEscape_cons (c : Byte) (s : Bytes) :
    url.QueryEscape (c :: s) = url.escapeByte c ++ url.QueryEscape s := by
  simp [url.QueryEscape]

theorem QueryUnescape_cons (c : Byte) (rest : Bytes) :
    url.QueryUnescape (c :: rest) =
      if c = chr '%' then
        match rest with
        | h1 :: h2 :: rest2 =>
          if url.ishex h1 ∧ url.ishex h2 then
            (url.QueryUnescape rest2).map
              (fun t => Fin.ofNat (url.unhex h1 * 16 + url.unhex h2) :: t)
          else none
        | _ => none
      else if c = chr '+' then (url.QueryUnescape rest).map (fun t => chr ' ' :: t)
      else (url.QueryUnescape rest).map (fun t => c :: t) := by
  conv_lhs => rw [url.QueryUnescape.eq_def]
  all_goals rfl

theorem QueryUnescape_escapeByte (c : Byte) (t : Bytes) :
    url.QueryUnescape (url.escapeByte c ++ t) = (url.QueryUnescape t).map (fun r => c :: r) := by
  unfold url.escapeByte
  by_cases hsp : c = chr ' '
  · subst hsp
    have h1 : ¬ (chr '+' = chr '%') := by decide
    simp only [if_true, List.cons_append, List.nil_append]
    rw [QueryUnescape_cons]
    simp only [h1, if_false, if_true]
  · by_cases hesc : url.shouldEscape c = true
    · obtain ⟨h1, h2, h3⟩ := escapeByte_hex c
      simp only [hsp, hesc, if_true, if_false, List.cons_append, List.nil_append]
      rw [QueryUnescape_cons]
      simp only [h1, h2, h3, if_true, and_self]
    · have hf : url.shouldEscape c = false := by simpa using hesc
      obtain ⟨h1, h2⟩ := shouldEscape_false c hf
      simp only [hsp, hf, if_false, Bool.false_eq_true, List.cons_append, List.nil_append]
      rw [QueryUnescape_cons]
      simp only [h1, h2, if_false]

theorem QueryUnescape_QueryEscape (s : Bytes) :
    url.QueryUnescape (url.QueryEscape s) = some s := by
  induction s with
  | nil => simp [url.QueryEscape, url.QueryUnescape]
  | cons c s ih => rw [QueryEscape_cons, QueryUnescape_escapeByte, ih]; rfl

theorem QueryEscape_injective (s t : Bytes) (h : url.QueryEscape s = url.QueryEscape t) :
    s = t := by
  have := congrArg url.QueryUnescape h
  rw [QueryUnescape_QueryEscape, QueryUnescape_QueryEscape] at this
  exact Option.some.inj this

theorem QueryEscape_clean (s : Bytes) :
    chr ':' ∉ url.QueryEscape s ∧ chr '/' ∉ url.QueryEscape s := by
  constructor <;>
  · intro h
    simp only [url.QueryEscape, List.mem_flatMap] at h
    obtain ⟨c, _, hc⟩ := h
    first
      | exact (escapeByte_clean c).1 hc
      | exact (escapeByte_clean c).2 hc

/-! ## Facts about Clean and Join -/

theorem takeWhile_elem (e rest : Bytes) (he : path.sep ∉ e)
    (hr : rest = [] ∨ rest.head? = some path.sep) :
    (e ++ rest).takeWhile (fun x => x ≠ path.sep) = e ∧
    (e ++ rest).dropWhile (fun x => x ≠ path.sep) = rest := by
  induction e with
  | nil =>
    rcases hr with hr | hr
    · subst hr; simp
    · cases rest with
      | nil => simp
      | cons a r =>
        simp only [List.head?_cons, Option.some.injEq] at hr
        subst hr
        simp
  | cons c e ih =>
    have hc : c ≠ path.sep := fun h => he (by simp [h])
    have he2 : path.sep ∉ e := fun h => he (by simp [h])
    obtain ⟨h1, h2⟩ := ih he2
    simp only [ne_eq, decide_not] at h1 h2
    simp [List.takeWhile, List.dropWhile, hc, h1, h2]

theorem cleanLoop_nil (rooted : Bool) (fuel : Nat) (out : Bytes) (dd : Nat) :
    path.cleanLoop rooted fuel [] out dd = out := by
  cases fuel <;> simp [path.cleanLoop]

theorem cleanLoop_sep (rooted : Bool) (fuel : Nat) (rest out : Bytes) (dd : Nat) :
    path.cleanLoop rooted (fuel + 1) (path.sep :: rest) out dd =
      path.cleanLoop rooted fuel rest out dd := by
  simp [path.cleanLoop]

theorem cleanLoop_elem (fuel : Nat) (e rest out : Bytes) (dd : Nat) (he : Plain e)
    (hr : rest = [] ∨ rest.head? = some path.sep) :
    path.cleanLoop false (fuel + 1) (e ++ rest) out dd =
      path.cleanLoop false fuel rest (glue out e) dd := by
  obtain ⟨hne, hsep, hdot, hdd⟩ := he
  obtain ⟨ht, hd⟩ := takeWhile_elem e rest hsep hr
  cases e with
  | nil => exact absurd rfl hne
  | cons c e =>
    have hc : c ≠ path.sep := fun h => hsep (by simp [h])
    have he2 : path.sep ∉ e := fun h => hsep (by simp [h])
    have h1 : ¬ (c = chr '.' ∧ (e ++ rest = [] ∨ (e ++ rest).head? = some path.sep)) := by
      rintro ⟨hc1, h⟩
      cases e with
      | nil => exact hdot (by subst hc1; rfl)
      | cons d e => 
        rcases h with h | h
        · simp at h
        · simp at h; exact he2 (by simp [h])
    have h2 : ¬ (c = chr '.' ∧ (e ++ rest).head? = some (chr '.') ∧
        ((e ++ rest).tail = [] ∨ (e ++ rest).tail.head? = some path.sep)) := by
      rintro ⟨hc1, hh, h⟩
      cases e with
      | nil =>
        rcases hr with hr | hr
        · subst hr; simp at hh
        · simp at hh; rw [hr] at hh; exact absurd hh (by decide)
      | cons d e =>
        simp at hh
        cases e with
        | nil => exact hdd (by subst hc1; subst hh; rfl)
        | cons d2 e =>
          rcases h with h | h
          · simp at h
          · simp at h; exact he2 (by simp [h])
    rw [List.cons_append] at ht hd ⊢
    rw [path.cleanLoop]
    simp only [hc, h1, h2, if_false, ht, hd]
    simp [glue]

theorem glue_nil (e : Bytes) : glue [] e = e := by simp [glue]

theorem glue_glue (out a e : Bytes) (ha : a ≠ []) :
    glue (glue out a) e = glue out (a ++ [path.sep] ++ e) := by
  have h : (glue out a).length ≠ 0 := by
    cases a with
    | nil => exact absurd rfl ha
    | cons c a => simp [glue]
  simp only [glue, bne_iff_ne, ne_eq] at h ⊢
  simp only [h, not_false_eq_true, if_true]
  simp [List.append_assoc]

theorem cleanLoop_join (comps : List Bytes) (hp : ∀ e ∈ comps, Plain e) (hne : comps ≠ [])
    (tail : Bytes) (ht : tail = [] ∨ tail.head? = some path.sep) :
    ∀ (fuel : Nat) (out : Bytes) (dd : Nat),
      path.cleanLoop false (fuel + (2 * comps.length - 1))
          (strings.Join comps [path.sep] ++ tail) out dd =
        path.cleanLoop false fuel tail (glue out (strings.Join comps [path.sep])) dd := by
  induction comps with
  | nil => exact absurd rfl hne
  | cons a rest ih =>
    intro fuel out dd
    have ha : Plain a := hp a (by simp)
    cases rest with
    | nil =>
      simp only [strings.Join, List.length_cons, List.length_nil]
      exact cleanLoop_elem fuel a tail out dd ha ht
    | cons b rest =>
      have hrest : ∀ e ∈ b :: rest, Plain e := fun e he => hp e (by simp [he])
      have step := ih hrest (by simp) fuel (glue out a) dd
      have hf : fuel + (2 * (a :: b :: rest).length - 1) =
          (fuel + (2 * (b :: rest).length - 1) + 1) + 1 := by
        simp only [List.length_cons]; omega
      rw [hf]
      simp only [strings.Join, List.append_assoc]
      rw [cleanLoop_elem _ a _ out dd ha (Or.inr (by simp))]
      rw [List.singleton_append, cleanLoop_sep, step, glue_glue out a _ ha.1]
      simp [List.append_assoc]

theorem Join_length (comps : List Bytes) (hp : ∀ e ∈ comps, Plain e) (hne : comps ≠ []) :
    2 * comps.length - 1 ≤ (strings.Join comps [path.sep]).length := by
  induction comps with
  | nil => exact absurd rfl hne
  | cons a rest ih =>
    have ha : a.length ≠ 0 := by
      have := (hp a (by simp)).1
      cases a with
      | nil => exact absurd rfl this
      | cons c a => simp
    cases rest with
    | nil => simp only [strings.Join, List.length_cons, List.length_nil]; omega
    | cons b rest =>
      have := ih (fun e he => hp e (by simp [he])) (by simp)
      simp only [strings.Join, List.length_append, List.length_cons, List.length_nil] at this ⊢
      omega

theorem Join_head (comps : List Bytes) (hp : ∀ e ∈ comps, Plain e) (hne : comps ≠ []) :
    strings.Join comps [path.sep] ≠ [] ∧ (strings.Join comps [path.sep]).head? ≠ some path.sep := by
  cases comps with
  | nil => exact absurd rfl hne
  | cons a rest =>
    obtain ⟨h1, h2, _, _⟩ := hp a (by simp)
    cases a with
    | nil => exact absurd rfl h1
    | cons c a =>
      have hc : c ≠ path.sep := fun h => h2 (by simp [h])
      cases rest with
      | nil => simp [strings.Join]; exact hc
      | cons b rest => simp [strings.Join]; exact hc

/-- Clean on a relative path: the loop on the whole input. -/
theorem Clean_relative (p : Bytes) (h1 : p ≠ []) (h2 : p.head? ≠ some path.sep) :
    path.Clean p =
      if (path.cleanLoop false p.length p [] 0).length = 0 then ascii "."
      else path.cleanLoop false p.length p [] 0 := by
  simp [path.Clean, h1, h2]

theorem Clean_join_tail (comps : List Bytes) (hp : ∀ e ∈ comps, Plain e) (hne : comps ≠ [])
    (tail : Bytes) (ht : tail = [] ∨ tail.head? = some path.sep) :
    ∃ fuel, tail.length ≤ fuel ∧
      path.Clean (strings.Join comps [path.sep] ++ tail) =
        if (path.cleanLoop false fuel tail (strings.Join comps [path.sep]) 0).length = 0
        then ascii "."
        else path.cleanLoop false fuel tail (strings.Join comps [path.sep]) 0 := by
  obtain ⟨hj1, hj2⟩ := Join_head comps hp hne
  have hlen := Join_length comps hp hne
  refine ⟨(strings.Join comps [path.sep] ++ tail).length - (2 * comps.length - 1), ?_, ?_⟩
  · simp only [List.length_append]; omega
  · have hp1 : strings.Join comps [path.sep] ++ tail ≠ [] := by simp [hj1]
    have hp2 : (strings.Join comps [path.sep] ++ tail).head? ≠ some path.sep := by
      cases hj : strings.Join comps [path.sep] with
      | nil => exact absurd hj hj1
      | cons c r => rw [hj] at hj2; simpa using hj2
    rw [Clean_relative _ hp1 hp2]
    have hfuel : (strings.Join comps [path.sep] ++ tail).length =
        ((strings.Join comps [path.sep] ++ tail).length - (2 * comps.length - 1)) +
          (2 * comps.length - 1) := by
      simp only [List.length_append]; omega
    have := cleanLoop_join comps hp hne tail ht
      ((strings.Join comps [path.sep] ++ tail).length - (2 * comps.length - 1)) [] 0
    rw [← hfuel, glue_nil] at this
    rw [this]

/-- Clean leaves a relative path of plain elements as it is. -/
theorem Clean_join (comps : List Bytes) (hp : ∀ e ∈ comps, Plain e) (hne : comps ≠ []) :
    path.Clean (strings.Join comps [path.sep]) = strings.Join comps [path.sep] := by
  obtain ⟨fuel, _, h⟩ := Clean_join_tail comps hp hne [] (Or.inl rfl)
  rw [List.append_nil] at h
  rw [h, cleanLoop_nil]
  have := (Join_head comps hp hne).1
  simp [this]

/-- Clean drops a trailing slash. -/
theorem Clean_join_slash (comps : List Bytes) (hp : ∀ e ∈ comps, Plain e) (hne : comps ≠ []) :
    path.Clean (strings.Join comps [path.sep] ++ [path.sep]) = strings.Join comps [path.sep] := by
  obtain ⟨fuel, hf, h⟩ := Clean_join_tail comps hp hne [path.sep] (Or.inr rfl)
  have := (Join_head comps hp hne).1
  obtain ⟨f, rfl⟩ : ∃ f, fuel = f + 1 := ⟨fuel - 1, by simp at hf; omega⟩
  rw [h, cleanLoop_sep, cleanLoop_nil]
  simp [this]

/-- Clean drops a trailing "." element. -/
theorem Clean_join_dot (comps : List Bytes) (hp : ∀ e ∈ comps, Plain e) (hne : comps ≠ []) :
    path.Clean (strings.Join comps [path.sep] ++ [path.sep, chr '.']) =
      strings.Join comps [path.sep] := by
  obtain ⟨fuel, hf, h⟩ := Clean_join_tail comps hp hne [path.sep, chr '.'] (Or.inr rfl)
  have := (Join_head comps hp hne).1
  obtain ⟨f, rfl⟩ : ∃ f, fuel = f + 1 + 1 := ⟨fuel - 2, by simp at hf; omega⟩
  rw [h, cleanLoop_sep]
  have hd : path.cleanLoop false (f + 1) [chr '.'] (strings.Join comps [path.sep]) 0 =
      strings.Join comps [path.sep] := by
    rw [path.cleanLoop]
    have : ¬ (chr '.' = path.sep) := by decide
    simp [this, cleanLoop_nil]
  rw [hd]
  simp [this]

theorem getD_elem (P h : Bytes) (j : Nat) (hj : j < h.length) :
    (P ++ [path.sep] ++ h).getD (P.length + 1 + j) 0 ∈ h := by
  have : (P ++ [path.sep] ++ h).getD (P.length + 1 + j) 0 = h[j] := by
    rw [List.getD_eq_getElem?_getD, List.getElem?_append_right (by simp)]
    simp [hj]
  rw [this]
  exact List.getElem_mem _

theorem getD_sep (P h : Bytes) : (P ++ [path.sep] ++ h).getD P.length 0 = path.sep := by
  rw [List.getD_eq_getElem?_getD, List.append_assoc, List.getElem?_append_right (by simp)]
  simp

theorem backtrack_sep (P h : Bytes) :
    path.backtrack (P ++ [path.sep] ++ h) 0 P.length = P.length := by
  have hs := getD_sep P h
  cases hP : P.length with
  | zero => rfl
  | succ k =>
    rw [hP] at hs
    rw [path.backtrack, if_neg]
    rintro ⟨_, hne⟩
    exact hne hs

theorem backtrack_elem (P h : Bytes) (hsep : path.sep ∉ h) :
    ∀ j, j < h.length → path.backtrack (P ++ [path.sep] ++ h) 0 (P.length + 1 + j) = P.length := by
  intro j
  induction j with
  | zero =>
    intro hj
    have hm := getD_elem P h 0 hj
    have hne : (P ++ [path.sep] ++ h).getD (P.length + 1) 0 ≠ path.sep :=
      fun heq => hsep (by rw [← heq]; exact hm)
    rw [Nat.add_zero, path.backtrack]
    simp only [Nat.zero_lt_succ, hne, ne_eq, not_false_eq_true, and_self, if_true]
    exact backtrack_sep P h
  | succ j ih =>
    intro hj
    have hm := getD_elem P h (j + 1) hj
    have hne : (P ++ [path.sep] ++ h).getD (P.length + 1 + j + 1) 0 ≠ path.sep :=
      fun heq => hsep (by rw [← heq]; exact hm)
    rw [← Nat.add_assoc, path.backtrack]
    simp only [Nat.zero_lt_succ, hne, ne_eq, not_false_eq_true, and_self, if_true]
    exact ih (by omega)

theorem Join_snoc (pre : List Bytes) (h : Bytes) (hne : pre ≠ []) :
    strings.Join (pre ++ [h]) [path.sep] = strings.Join pre [path.sep] ++ [path.sep] ++ h := by
  induction pre with
  | nil => exact absurd rfl hne
  | cons a rest ih =>
    cases rest with
    | nil => simp [strings.Join]
    | cons b rest =>
      have := ih (by simp)
      simp only [List.cons_append] at this
      show a ++ [path.sep] ++ strings.Join (b :: (rest ++ [h])) [path.sep] =
        (a ++ [path.sep] ++ strings.Join (b :: rest) [path.sep]) ++ [path.sep] ++ h
      rw [this]
      simp only [List.append_assoc]

/-- Clean resolves a trailing ".." element against the element before it. -/
theorem Clean_join_dotdot (pre : List Bytes) (h : Bytes) (hp : ∀ e ∈ pre, Plain e)
    (hne : pre ≠ []) (hh : Plain h) :
    path.Clean (strings.Join (pre ++ [h]) [path.sep] ++ [path.sep, chr '.', chr '.']) =
      strings.Join pre [path.sep] := by
  have hp2 : ∀ e ∈ pre ++ [h], Plain e := by
    intro e he
    rcases List.mem_append.1 he with he | he
    · exact hp e he
    · simp at he; subst he; exact hh
  obtain ⟨fuel, hf, hc⟩ := Clean_join_tail (pre ++ [h]) hp2 (by simp)
    [path.sep, chr '.', chr '.'] (Or.inr rfl)
  obtain ⟨f, rfl⟩ : ∃ f, fuel = f + 1 + 1 := ⟨fuel - 2, by simp at hf; omega⟩
  have hP := (Join_head pre hp hne).1
  rw [hc, cleanLoop_sep, Join_snoc pre h hne]
  have hlen : (strings.Join pre [path.sep] ++ [path.sep] ++ h).length - 1 =
      (strings.Join pre [path.sep]).length + 1 + (h.length - 1) := by
    have : h.length ≠ 0 := by
      intro h0; exact hh.1 (List.length_eq_zero.1 h0)
    simp only [List.length_append, List.length_cons, List.length_nil]; omega
  have hb : path.backtrack (strings.Join pre [path.sep] ++ [path.sep] ++ h) 0
      ((strings.Join pre [path.sep] ++ [path.sep] ++ h).length - 1) =
      (strings.Join pre [path.sep]).length := by
    rw [hlen]
    apply backtrack_elem _ _ hh.2.1
    have : h.length ≠ 0 := by
      intro h0; exact hh.1 (List.length_eq_zero.1 h0)
    omega
  have hd : path.cleanLoop false (f + 1) [chr '.', chr '.']
      (strings.Join pre [path.sep] ++ [path.sep] ++ h) 0 = strings.Join pre [path.sep] := by
    rw [path.cleanLoop]
    have h1 : ¬ (chr '.' = path.sep) := by decide
    have h2 : 0 < (strings.Join pre [path.sep] ++ [path.sep] ++ h).length := by simp
    have h3 : ¬ (chr '.' = chr '.' ∧ ([chr '.'] = [] ∨ [chr '.'].head? = some path.sep)) := by
      decide
    have h4 : chr '.' = chr '.' ∧ [chr '.'].head? = some (chr '.') ∧
        ([chr '.'].tail = [] ∨ [chr '.'].tail.head? = some path.sep) := by decide
    simp only [h1, h3, h4, if_false, if_true, h2, hb, cleanLoop_nil, and_self]
    simp only [List.append_assoc, List.take_left']
    rw [if_neg (by decide)]
    simp only [List.tail_cons, cleanLoop_nil]
  rw [hd]
  simp [hP]

/-! ## Facts about digests, job ids and the paths of a job -/

theorem plain_of_chars (e : Bytes) (hne : e ≠ [])
    (h : ∀ c ∈ e, c ≠ path.sep ∧ c ≠ chr '.') : Plain e := by
  refine ⟨hne, fun hs => (h _ hs).1 rfl, ?_, ?_⟩
  · intro he
    exact (h (chr '.') (by rw [he]; decide)).2 rfl
  · intro he
    exact (h (chr '.') (by rw [he]; decide)).2 rfl

theorem lowerhex_chars : ∀ c : Byte,
    c ∈ lowerhex → c ≠ path.sep ∧ c ≠ chr '.' ∧ c ≠ chr 't' := by decide

theorem lowerhex_getD : ∀ c : Byte,
    lowerhex.getD (c.val / 16) 0 ∈ lowerhex ∧ lowerhex.getD (c.val % 16) 0 ∈ lowerhex := by
  decide

theorem hex_hexString (d : Bytes) (hd : d ≠ []) : HexString (hex d) := by
  constructor
  · cases d with
    | nil => exact absurd rfl hd
    | cons c d => simp [hex]
  · intro c hc
    simp only [hex, List.mem_flatMap] at hc
    obtain ⟨b, _, hb⟩ := hc
    simp only [List.mem_cons, List.mem_singleton, List.not_mem_nil, or_false] at hb
    rcases hb with hb | hb
    · rw [hb]; exact (lowerhex_getD b).1
    · rw [hb]; exact (lowerhex_getD b).2

theorem be_length (n x : Nat) : (sha1.be n x).length = n := by simp [sha1.be]

theorem Sum_length (data : Bytes) : (sha1.Sum data).length = 20 := by
  simp [sha1.Sum, be_length]

/-- The digest string of any content is a non-empty hex string. -/
theorem digest_hexString (data : Bytes) : HexString (digest data) := by
  apply hex_hexString
  intro h
  have := Sum_length data
  rw [h] at this
  simp at this

theorem HexString.plain {h : Bytes} (hh : HexString h) : Plain h :=
  plain_of_chars h hh.1
    (fun c hc => ⟨(lowerhex_chars c (hh.2 c hc)).1, (lowerhex_chars c (hh.2 c hc)).2.1⟩)

/-- A decimal digit. -/
theorem digits_chars (fuel : Nat) : ∀ (n : Nat) (acc : Bytes),
    (∀ c ∈ acc, c ≠ path.sep ∧ c ≠ chr '.') →
      ∀ c ∈ strconv.digits fuel n acc, c ≠ path.sep ∧ c ≠ chr '.' := by
  induction fuel with
  | zero => intro n acc h; simpa [strconv.digits] using h
  | succ fuel ih =>
    intro n acc h c hc
    rw [strconv.digits] at hc
    have hdig : ∀ k : Nat, k < 10 →
        (Fin.ofNat (48 + k) : Byte) ≠ path.sep ∧ (Fin.ofNat (48 + k) : Byte) ≠ chr '.' := by
      decide
    by_cases hn : n < 10
    · simp only [hn, if_true, List.mem_cons] at hc
      rcases hc with hc | hc
      · rw [hc]; exact hdig n hn
      · exact h c hc
    · simp only [hn, if_false] at hc
      refine ih (n / 10) _ ?_ c hc
      intro x hx
      simp only [List.mem_cons] at hx
      rcases hx with hx | hx
      · rw [hx]; exact hdig (n % 10) (Nat.mod_lt _ (by decide))
      · exact h x hx

theorem digits_ne_nil (fuel : Nat) : ∀ (n : Nat) (acc : Bytes),
    (acc ≠ [] ∨ fuel ≠ 0) → strconv.digits fuel n acc ≠ [] := by
  induction fuel with
  | zero => intro n acc h; rcases h with h | h; simpa [strconv.digits] using h; exact absurd rfl h
  | succ fuel ih =>
    intro n acc _
    rw [strconv.digits]
    by_cases hn : n < 10
    · simp [hn]
    · simp only [hn, if_false]
      exact ih _ _ (Or.inl (by simp))

/-- The decimal job id is a plain path element. -/
theorem FormatInt_plain (t : Int) : Plain (strconv.FormatInt t) := by
  have hd : ∀ c ∈ strconv.digits (t.natAbs + 1) t.natAbs [], c ≠ path.sep ∧ c ≠ chr '.' :=
    digits_chars _ _ _ (by simp)
  apply plain_of_chars
  · unfold strconv.FormatInt
    split
    · simp
    · exact digits_ne_nil _ _ _ (Or.inr (by simp))
  · intro c hc
    unfold strconv.FormatInt at hc
    split at hc
    · simp only [List.mem_cons] at hc
      rcases hc with hc | hc
      · rw [hc]; decide
      · exact hd c hc
    · exact hd c hc

theorem Join_two (a b : Bytes) (ha : a ≠ []) :
    path.Join [a, b] = path.Clean (a ++ [path.sep] ++ b) := by
  simp [path.Join, ha, strings.Join]

theorem Join_three (a b c : Bytes) (ha : a ≠ []) :
    path.Join [a, b, c] = path.Clean (a ++ [path.sep] ++ b ++ [path.sep] ++ c) := by
  simp [path.Join, ha, strings.Join]

/-- The workDir of a plain job id is the literal files/tmp/id. -/
theorem workDir_eq (filename : Bytes) (h : Plain filename) :
    workDir filename = ascii "files/tmp/" ++ filename := by
  have := Clean_join [ascii "files", ascii "tmp", filename]
    (by intro e he; simp at he; rcases he with he | he | he <;> subst he <;> first | decide | exact h)
    (by simp)
  unfold workDir filepath.Join
  rw [Join_three _ _ _ (by decide)]
  simp only [strings.Join] at this
  simp only [List.append_assoc] at this ⊢
  rw [this]
  simp [ascii, path.sep, chr]

/-- A file directly in the workDir of a plain job id is the literal
files/tmp/id/name. -/
theorem workDir_file (filename name : Bytes) (h : Plain filename) (hn : Plain name) :
    filepath.Join [workDir filename, name] = ascii "files/tmp/" ++ filename ++ ascii "/" ++ name := by
  have := Clean_join [ascii "files", ascii "tmp", filename, name]
    (by
      intro e he; simp at he
      rcases he with he | he | he | he <;> subst he <;> first | decide | exact h | exact hn)
    (by simp)
  rw [workDir_eq filename h]
  unfold filepath.Join
  rw [Join_two _ _ (by simp [ascii])]
  simp only [strings.Join] at this
  have e1 : ascii "files/tmp/" ++ filename ++ [path.sep] ++ name =
      ascii "files" ++ ([path.sep] ++ (ascii "tmp" ++ ([path.sep] ++
        (filename ++ ([path.sep] ++ name))))) := by
    simp [ascii, path.sep, chr]
  have e2 : ascii "files/tmp/" ++ filename ++ ascii "/" ++ name =
      ascii "files" ++ ([path.sep] ++ (ascii "tmp" ++ ([path.sep] ++
        (filename ++ ([path.sep] ++ name))))) := by
    simp [ascii, path.sep, chr]
  simp only [List.append_assoc] at this e1 e2 ⊢
  rw [e2, ← this]
  congr 1

/-! ## The escaped URL and the destination of mover -/

theorem escapedurl_no_sep (u : Bytes) : path.sep ∉ escapedurl u :=
  (QueryEscape_clean _).2

theorem replace_dot : ∀ c : Byte,
    (if (if c = chr ':' then chr '-' else c) = chr '/' then chr '_'
      else (if c = chr ':' then chr '-' else c)) = chr '.' → c = chr '.' := by decide

theorem escapedurl_eq_iff (u v : Bytes) :
    escapedurl u = escapedurl v ↔
      strings.Replace (strings.Replace u (chr ':') (chr '-')) (chr '/') (chr '_') =
        strings.Replace (strings.Replace v (chr ':') (chr '-')) (chr '/') (chr '_') :=
  ⟨fun h => QueryEscape_injective _ _ h, fun h => by unfold escapedurl; rw [h]⟩

theorem escapedurl_nil (u : Bytes) : escapedurl u = [] ↔ u = [] := by
  have h0 : escapedurl [] = [] := by decide
  constructor
  · intro h
    rw [← h0, escapedurl_eq_iff] at h
    simpa [strings.Replace] using h
  · intro h; rw [h, h0]

theorem escapedurl_dot (u : Bytes) : escapedurl u = ascii "." ↔ u = ascii "." := by
  have h0 : escapedurl (ascii ".") = ascii "." := by decide
  constructor
  · intro h
    rw [← h0, escapedurl_eq_iff] at h
    have h1 : strings.Replace (strings.Replace (ascii ".") (chr ':') (chr '-')) (chr '/') (chr '_')
        = [chr '.'] := by decide
    rw [h1] at h
    match u, h with
    | [c], h =>
      simp only [strings.Replace, List.map_cons, List.map_nil, List.cons.injEq, and_true] at h
      rw [replace_dot c h]; rfl
    | [], h => simp [strings.Replace] at h
    | _ :: _ :: _, h => simp [strings.Replace] at h
  · intro h; rw [h, h0]

theorem escapedurl_dotdot (u : Bytes) : escapedurl u = ascii ".." ↔ u = ascii ".." := by
  have h0 : escapedurl (ascii "..") = ascii ".." := by decide
  constructor
  · intro h
    rw [← h0, escapedurl_eq_iff] at h
    have h1 : strings.Replace (strings.Replace (ascii "..") (chr ':') (chr '-')) (chr '/') (chr '_')
        = [chr '.', chr '.'] := by decide
    rw [h1] at h
    match u, h with
    | [c, d], h =>
      simp only [strings.Replace, List.map_cons, List.map_nil, List.cons.injEq, and_true] at h
      rw [replace_dot c h.1, replace_dot d h.2]; rfl
    | [], h => simp [strings.Replace] at h
    | [_], h => simp [strings.Replace] at h
    | _ :: _ :: _ :: _, h => simp [strings.Replace] at h
  · intro h; rw [h, h0]

theorem escapedurl_plain (u : Bytes) (h1 : u ≠ []) (h2 : u ≠ ascii ".") (h3 : u ≠ ascii "..") :
    Plain (escapedurl u) :=
  ⟨fun h => h1 ((escapedurl_nil u).1 h), escapedurl_no_sep u,
    fun h => h2 ((escapedurl_dot u).1 h), fun h => h3 ((escapedurl_dotdot u).1 h)⟩

/-- The digest directory is the literal files/hash. -/
theorem destdir_eq (h : Bytes) (hh : HexString h) :
    filepath.Join [ascii "files", h] = ascii "files/" ++ h := by
  have := Clean_join [ascii "files", h]
    (by intro e he; simp at he; rcases he with he | he <;> subst he <;> first | decide | exact hh.plain)
    (by simp)
  unfold filepath.Join
  rw [Join_two _ _ (by decide)]
  simp only [strings.Join] at this
  simp only [List.append_assoc] at this ⊢
  rw [this]
  simp [ascii, path.sep, chr]

theorem files_hash (h : Bytes) :
    ascii "files/" ++ h = strings.Join [ascii "files", h] [path.sep] := by
  simp [strings.Join, ascii, path.sep, chr]

/-- The destination for an escaped URL that is a plain element. -/
theorem destination_plain (u h : Bytes) (hh : HexString h) (he : Plain (escapedurl u)) :
    destination u h = ascii "files/" ++ h ++ ascii "/" ++ escapedurl u := by
  have := Clean_join [ascii "files", h, escapedurl u]
    (by
      intro e hm; simp at hm
      rcases hm with hm | hm | hm <;> subst hm <;> first | decide | exact hh.plain | exact he)
    (by simp)
  unfold destination
  rw [destdir_eq h hh]
  unfold filepath.Join
  rw [Join_two _ _ (by simp [ascii])]
  simp only [strings.Join] at this
  have e1 : ascii "files/" ++ h ++ [path.sep] ++ escapedurl u =
      ascii "files" ++ ([path.sep] ++ (h ++ ([path.sep] ++ escapedurl u))) := by
    simp [ascii, path.sep, chr]
  have e2 : ascii "files/" ++ h ++ ascii "/" ++ escapedurl u =
      ascii "files" ++ ([path.sep] ++ (h ++ ([path.sep] ++ escapedurl u))) := by
    simp [ascii, path.sep, chr]
  simp only [List.append_assoc] at this e1 e2 ⊢
  rw [e2, ← this]
  congr 1

/-- The destination for the empty escaped URL and for ".": the digest
directory itself. -/
theorem destination_dir (u h : Bytes) (hh : HexString h)
    (he : escapedurl u = [] ∨ escapedurl u = ascii ".") :
    destination u h = ascii "files/" ++ h := by
  have hp : ∀ e ∈ [ascii "files", h], Plain e := by
    intro e hm; simp at hm
    rcases hm with hm | hm <;> subst hm <;> first | decide | exact hh.plain
  unfold destination
  rw [destdir_eq h hh]
  unfold filepath.Join
  rw [Join_two _ _ (by simp [ascii])]
  rcases he with he | he
  · rw [he, List.append_nil, files_hash]
    exact Clean_join_slash _ hp (by simp)
  · rw [he, files_hash]
    have e : strings.Join [ascii "files", h] [path.sep] ++ [path.sep] ++ ascii "." =
        strings.Join [ascii "files", h] [path.sep] ++ [path.sep, chr '.'] := by
      simp [ascii, chr]
    rw [e]
    exact Clean_join_dot _ hp (by simp)

/-- The destination for the escaped URL "..": the directory files. -/
theorem destination_up (u h : Bytes) (hh : HexString h) (he : escapedurl u = ascii "..") :
    destination u h = ascii "files" := by
  unfold destination
  rw [destdir_eq h hh]
  unfold filepath.Join
  rw [Join_two _ _ (by simp [ascii])]
  have := Clean_join_dotdot [ascii "files"] h (by intro e hm; simp at hm; subst hm; decide)
    (by simp) hh.plain
  have e : ascii "files/" ++ h ++ [path.sep] ++ ascii ".." =
      strings.Join ([ascii "files"] ++ [h]) [path.sep] ++ [path.sep, chr '.', chr '.'] := by
    simp [strings.Join, ascii, path.sep, chr]
  rw [he, e, this]
  rfl

/-! ## The paths of a job are distinct -/

theorem jobFile_eq (t : Int) :
    jobFile t = ascii "files/tmp/" ++ strconv.FormatInt t ++ ascii "/" ++ ascii "file" :=
  workDir_file _ _ (FormatInt_plain t) (by decide)

theorem logPath_eq (t : Int) :
    logPath (strconv.FormatInt t) = ascii "files/tmp/" ++ strconv.FormatInt t ++ ascii "/" ++ ascii "log" :=
  workDir_file _ _ (FormatInt_plain t) (by decide)

theorem statusPath_eq (t : Int) :
    statusPath (strconv.FormatInt t) =
      ascii "files/tmp/" ++ strconv.FormatInt t ++ ascii "/" ++ ascii "done" :=
  workDir_file _ _ (FormatInt_plain t) (by decide)

theorem jobFile_ne_logPath (t : Int) : jobFile t ≠ logPath (strconv.FormatInt t) := by
  rw [jobFile_eq, logPath_eq]
  intro h
  exact absurd (List.append_cancel_left h) (by decide)

theorem statusPath_ne_logPath (t : Int) :
    statusPath (strconv.FormatInt t) ≠ logPath (strconv.FormatInt t) := by
  rw [statusPath_eq, logPath_eq]
  intro h
  exact absurd (List.append_cancel_left h) (by decide)

theorem statusPath_ne_jobFile (t : Int) : statusPath (strconv.FormatInt t) ≠ jobFile t := by
  rw [statusPath_eq, jobFile_eq]
  intro h
  exact absurd (List.append_cancel_left h) (by decide)

/-- The destination of mover is never a path under files/tmp. -/
theorem destination_ne_tmp (u h rest : Bytes) (hh : HexString h) :
    destination u h ≠ ascii "files/tmp/" ++ rest := by
  have split : ascii "files/tmp/" ++ rest = ascii "files/" ++ (chr 't' :: (ascii "mp/" ++ rest)) := by
    simp [ascii, chr]
  have hhead : ∀ x : Bytes, h ++ x ≠ chr 't' :: (ascii "mp/" ++ rest) := by
    intro x hx
    obtain ⟨hne, hc⟩ := hh
    cases h with
    | nil => exact absurd rfl hne
    | cons c h =>
      simp only [List.cons_append, List.cons.injEq] at hx
      exact (lowerhex_chars c (hc c (by simp))).2.2 hx.1
  rw [split]
  by_cases h1 : escapedurl u = [] ∨ escapedurl u = ascii "."
  · rw [destination_dir u h hh h1]
    intro heq
    have := List.append_cancel_left heq
    exact hhead [] (by rw [List.append_nil]; exact this)
  · by_cases h2 : escapedurl u = ascii ".."
    · rw [destination_up u h hh h2]
      intro heq
      have := congrArg List.length heq
      simp [ascii] at this
    · have hp : Plain (escapedurl u) :=
        ⟨fun e => h1 (Or.inl e), escapedurl_no_sep u, fun e => h1 (Or.inr e), h2⟩
      rw [destination_plain u h hh hp]
      intro heq
      rw [List.append_assoc, List.append_assoc] at heq
      exact hhead _ (List.append_cancel_left heq)

theorem destination_ne_logPath (u h : Bytes) (t : Int) (hh : HexString h) :
    destination u h ≠ logPath (strconv.FormatInt t) := by
  rw [logPath_eq, List.append_assoc, List.append_assoc]
  exact destination_ne_tmp u h _ hh

theorem destination_ne_statusPath (u h : Bytes) (t : Int) (hh : HexString h) :
    destination u h ≠ statusPath (strconv.FormatInt t) := by
  rw [statusPath_eq, List.append_assoc, List.append_assoc]
  exact destination_ne_tmp u h _ hh

/-! ## Facts about downloadLog -/

theorem downloadLog_trace (le : LogEnv) (fs : FS) (t : Int) (m : List Bytes) :
    ∃ b, (downloadLog le fs t m).2 = [Event.log m b] := by
  unfold downloadLog
  cases le.mkdirErr <;> cases le.openErr <;> cases le.writeErr <;> simp

theorem downloadLog_other (le : LogEnv) (fs : FS) (t : Int) (m : List Bytes) (p : Bytes)
    (hp : p ≠ logPath (strconv.FormatInt t)) : (downloadLog le fs t m).1 p = fs p := by
  unfold downloadLog
  cases le.mkdirErr <;> cases le.openErr <;> cases le.writeErr <;> simp only [] <;>
    simp only [FS.write] <;> rw [if_neg] <;> exact hp

theorem downloadLog_log (le : LogEnv) (fs : FS) (t : Int) (m : List Bytes)
    (h1 : le.mkdirErr = none) (h2 : le.openErr = none) (h3 : le.writeErr = none) :
    (downloadLog le fs t m).1 (logPath (strconv.FormatInt t)) =
      some ((fs (logPath (strconv.FormatInt t))).getD [] ++ logLine le.now m) := by
  unfold downloadLog
  simp only [h1, h2, h3, FS.write]
  rw [if_pos (by rfl)]
  rfl

theorem downloadLog_snd (le : LogEnv) (fs : FS) (t : Int) (m : List Bytes) :
    (downloadLog le fs t m).2 = [Event.log m le.ok] := by
  unfold downloadLog LogEnv.ok
  cases le.mkdirErr <;> cases le.openErr <;> cases le.writeErr <;> simp

/-- Every rename and every write of the status file in mover carries the
destination. -/
theorem mover_targets (env : Env) (fs : FS) (u : Bytes) (t : Int) (h : Bytes) :
    (∀ old new ok, Event.rename old new ok ∈ (mover env fs u t h).trace →
      old = jobFile t ∧ new = destination u h) ∧
    (∀ p d ok, Event.writeFile p d ok ∈ (mover env fs u t h).trace →
      p = statusPath (strconv.FormatInt t) ∧ d = destination u h) := by
  constructor
  · intro old new ok hmem
    unfold mover at hmem
    simp only [downloadLog_snd] at hmem
    (repeat' split at hmem) <;> simp at hmem <;> exact ⟨hmem.1.trans rfl, hmem.2.1.trans rfl⟩
  · intro p d ok hmem
    unfold mover at hmem
    simp only [downloadLog_snd] at hmem
    (repeat' split at hmem) <;> simp at hmem <;> exact ⟨hmem.1.trans rfl, hmem.2.1.trans rfl⟩

theorem readFile_ok {fs : FS} {p : Bytes} {fault : Option Bytes} {d : Bytes}
    (h : readFile fs p fault = .ok d) : fs p = some d := by
  unfold readFile at h
  cases fault with
  | some e => simp at h
  | none =>
    cases hp : fs p with
    | none => simp [hp] at h
    | some x => simp [hp] at h; rw [h]

theorem rename_ok {fs fs1 : FS} {old new : Bytes} {fault : Option Bytes}
    (h : rename fs old new fault = .ok fs1) :
    ∃ d, fs old = some d ∧ fs1 new = some d ∧ ∀ q, q ≠ old → q ≠ new → fs1 q = fs q := by
  unfold rename at h
  cases fault with
  | some e => simp at h
  | none =>
    cases hp : fs old with
    | none => simp [hp] at h
    | some d =>
      simp only [hp, Except.ok.injEq] at h
      refine ⟨d, rfl, ?_, ?_⟩
      · by_cases heq : old = new
        · simp only [heq, if_true] at h
          rw [← h, ← heq, hp]
        · simp only [heq, if_false] at h
          rw [← h]; simp [FS.write]
      · intro q h1 h2
        by_cases heq : old = new
        · simp only [heq, if_true] at h
          rw [← h]
        · simp only [heq, if_false] at h
          rw [← h]; simp [FS.write, FS.remove, h1, h2]

/-- What loader leaves behind. -/
theorem loader_cases (env : Env) (fs : FS) (u : Bytes) (t : Int) :
    (∃ copied w1,
      client.Get u (env.fault 271) = .ok () ∧
      (loader env fs u t).trace =
        [Event.mkdirAll (workDir (strconv.FormatInt t)) true, Event.create (jobFile t) true,
          Event.get u true, Event.copyBody (jobFile t) copied,
          Event.log [ascii "Finished loading ", u] w1, Event.go (Goroutine.hasher u t)] ∧
      (loader env fs u t).next = some (Goroutine.hasher u t)) ∨
    ((loader env fs u t).next = none ∧
      (∀ p d ok, Event.writeFile p d ok ∉ (loader env fs u t).trace) ∧
      (∀ o n ok, Event.rename o n ok ∉ (loader env fs u t).trace) ∧
      (∀ g, Event.go g ∉ (loader env fs u t).trace)) := by
  unfold loader
  simp only [downloadLog_snd]
  rcases env.fault 249 with _ | e1
  · rcases env.fault 258 with _ | e2
    · cases hg : client.Get u (env.fault 271) with
      | ok x =>
        left
        exact ⟨_, _, rfl, rfl, rfl⟩
      | error err => right; simp
    · right; simp
  · right; simp

theorem loader_status (env : Env) (fs : FS) (u : Bytes) (t : Int) :
    (loader env fs u t).fs (statusPath (strconv.FormatInt t)) =
      fs (statusPath (strconv.FormatInt t)) := by
  have h1 := statusPath_ne_logPath t
  have h2 := statusPath_ne_jobFile t
  have h3 : statusPath (strconv.FormatInt t) ≠
      path.Join [filepath.Join [ascii "files", ascii "tmp", strconv.FormatInt t], ascii "file"] := h2
  unfold loader
  rcases env.fault 249 with _ | e1
  · rcases env.fault 258 with _ | e2
    · cases client.Get u (env.fault 271) with
      | ok x => simp only [downloadLog_other _ _ _ _ _ h1, FS.write, h3, if_false]
      | error err => simp only [downloadLog_other _ _ _ _ _ h1, FS.write, h3, if_false]
    · simp only [downloadLog_other _ _ _ _ _ h1]
  · simp only [downloadLog_other _ _ _ _ _ h1]

/-! ## The log of a job only grows -/

theorem jobLog_downloadLog (le : LogEnv) (fs : FS) (t : Int) (m : List Bytes) :
    ∃ x, jobLog (downloadLog le fs t m).1 t = jobLog fs t ++ x := by
  unfold downloadLog jobLog
  cases le.mkdirErr with
  | some e => exact ⟨[], by simp⟩
  | none =>
    cases le.openErr with
    | some e => exact ⟨[], by simp⟩
    | none =>
      cases le.writeErr with
      | some n =>
        refine ⟨(logLine le.now m).take n, ?_⟩
        simp only [FS.write]
        rw [if_pos (by rfl)]
        rfl
      | none =>
        refine ⟨logLine le.now m, ?_⟩
        simp only [FS.write]
        rw [if_pos (by rfl)]
        rfl

theorem jobLog_downloadLog_ok (le : LogEnv) (fs : FS) (t : Int) (m : List Bytes)
    (h : le.ok = true) :
    jobLog (downloadLog le fs t m).1 t = jobLog fs t ++ logLine le.now m := by
  have h1 : le.mkdirErr = none := by
    cases hm : le.mkdirErr with
    | none => rfl
    | some e => simp [LogEnv.ok, hm] at h
  have h2 : le.openErr = none := by
    cases hm : le.openErr with
    | none => rfl
    | some e => simp [LogEnv.ok, hm] at h
  have h3 : le.writeErr = none := by
    cases hm : le.writeErr with
    | none => rfl
    | some e => simp [LogEnv.ok, hm] at h
  unfold jobLog
  rw [downloadLog_log le fs t m h1 h2 h3]
  rfl

theorem jobLog_write (fs : FS) (t : Int) (p d : Bytes)
    (hp : logPath (strconv.FormatInt t) ≠ p) : jobLog (fs.write p d) t = jobLog fs t := by
  unfold jobLog FS.write
  rw [if_neg hp]

theorem jobLog_rename {fs fs1 : FS} {old new : Bytes} {fault : Option Bytes} (t : Int)
    (h : rename fs old new fault = .ok fs1) (h1 : logPath (strconv.FormatInt t) ≠ old)
    (h2 : logPath (strconv.FormatInt t) ≠ new) : jobLog fs1 t = jobLog fs t := by
  obtain ⟨_, _, _, h3⟩ := rename_ok h
  unfold jobLog
  rw [h3 _ h1 h2]

/-- Whatever mover does, the log of the job keeps what it held. -/
theorem mover_log (env : Env) (fs : FS) (u : Bytes) (t : Int) (h : Bytes) (hh : HexString h) :
    ∃ x, jobLog (mover env fs u t h).fs t = jobLog fs t ++ x := by
  have h2 := (jobFile_ne_logPath t).symm
  have h3 := (statusPath_ne_logPath t).symm
  have h4 := (destination_ne_logPath u h t hh).symm
  obtain ⟨x0, hx0⟩ := jobLog_downloadLog (env.log 334) fs t [ascii "Moving to ", destination u h]
  unfold mover
  simp only []
  rcases env.fault 336 with _ | e1
  · cases hr : rename (downloadLog (env.log 334) fs t [ascii "Moving to ", destination u h]).1
        (jobFile t) (destination u h) (env.fault 343) with
    | error err =>
      have hr2 : rename (downloadLog (env.log 334) fs t [ascii "Moving to ",
          filepath.Join [filepath.Join [ascii "files", h],
            url.QueryEscape (strings.Replace (strings.Replace u (chr ':') (chr '-')) (chr '/')
              (chr '_'))]]).1
          (filepath.Join [filepath.Join [ascii "files", ascii "tmp", strconv.FormatInt t],
            ascii "file"])
          (filepath.Join [filepath.Join [ascii "files", h],
            url.QueryEscape (strings.Replace (strings.Replace u (chr ':') (chr '-')) (chr '/')
              (chr '_'))]) (env.fault 343) = .error err := hr
      simp only [hr2]
      obtain ⟨x1, hx1⟩ := jobLog_downloadLog (env.log 346)
        (downloadLog (env.log 334) fs t [ascii "Moving to ", destination u h]).1 t
        [ascii "can not move file to destination", err]
      exact ⟨x0 ++ x1, by rw [← List.append_assoc, ← hx0]; exact hx1⟩
    | ok fs1 =>
      have hr2 : rename (downloadLog (env.log 334) fs t [ascii "Moving to ",
          filepath.Join [filepath.Join [ascii "files", h],
            url.QueryEscape (strings.Replace (strings.Replace u (chr ':') (chr '-')) (chr '/')
              (chr '_'))]]).1
          (filepath.Join [filepath.Join [ascii "files", ascii "tmp", strconv.FormatInt t],
            ascii "file"])
          (filepath.Join [filepath.Join [ascii "files", h],
            url.QueryEscape (strings.Replace (strings.Replace u (chr ':') (chr '-')) (chr '/')
              (chr '_'))]) (env.fault 343) = .ok fs1 := hr
      have hl1 : jobLog fs1 t = jobLog fs t ++ x0 := by
        rw [jobLog_rename t hr h2 h4]; exact hx0
      simp only [hr2]
      rcases env.fault 351 with _ | e3
      · simp only []
        obtain ⟨x1, hx1⟩ := jobLog_downloadLog (env.log 358)
          (fs1.write (statusPath (strconv.FormatInt t)) (destination u h)) t [ascii "Finished"]
        refine ⟨x0 ++ x1, ?_⟩
        rw [← List.append_assoc, ← hl1, ← jobLog_write fs1 t _ (destination u h) h3]
        exact hx1
      · simp only []
        rcases env.written 351 with _ | n
        · exact ⟨x0, hl1⟩
        · refine ⟨x0, ?_⟩
          rw [← hl1]
          exact jobLog_write fs1 t _ _ h3
  · simp only []
    obtain ⟨x1, hx1⟩ := jobLog_downloadLog (env.log 339)
      (downloadLog (env.log 334) fs t [ascii "Moving to ", destination u h]).1 t
      [ascii "can not create desintaion dir: ", e1]
    exact ⟨x0 ++ x1, by rw [← List.append_assoc, ← hx0]; exact hx1⟩

/-- The first step of mover is the log line with the destination, and mover
starts no goroutine. -/
theorem mover_first (env : Env) (fs : FS) (u : Bytes) (t : Int) (h : Bytes) :
    (∃ w rest, (mover env fs u t h).trace =
      Event.log [ascii "Moving to ", destination u h] w :: rest) ∧
    (∀ g, Event.go g ∉ (mover env fs u t h).trace) ∧
    (env.fault 336 = none →
      ∃ ok, Event.rename (jobFile t) (destination u h) ok ∈ (mover env fs u t h).trace) := by
  refine ⟨?_, ?_, ?_⟩
  · unfold mover
    simp only [downloadLog_snd]
    (repeat' split) <;> exact ⟨_, _, rfl⟩
  · intro g hmem
    unfold mover at hmem
    simp only [downloadLog_snd] at hmem
    (repeat' split at hmem) <;> simp at hmem
  · intro hf
    unfold mover
    simp only [downloadLog_snd, hf]
    (repeat' split) <;> first
      | exact ⟨false, by simp; exact ⟨rfl, rfl⟩⟩
      | exact ⟨true, by simp; exact ⟨rfl, rfl⟩⟩
/-- What hasher leaves behind. -/
theorem hasher_cases (env : Env) (fs : FS) (u : Bytes) (t : Int) :
    (hasher env fs u t).fs (statusPath (strconv.FormatInt t)) =
      fs (statusPath (strconv.FormatInt t)) ∧
    ((∃ content w2 w3,
      fs (jobFile t) = some content ∧
      (hasher env fs u t).fs (jobFile t) = some content ∧
      (hasher env fs u t).trace =
        [Event.log [ascii "Hashing ", u] w2, Event.openFile (jobFile t) true,
          Event.hashCopy (jobFile t) true,
          Event.log [ascii "Finished hashing, hash is", digest content] w3,
          Event.go (Goroutine.mover u t (digest content))] ∧
      (hasher env fs u t).next = some (Goroutine.mover u t (digest content)) ∧
      w3 = (env.log 314).ok ∧
      ((env.log 314).ok = true →
        ∃ a, jobLog (hasher env fs u t).fs t =
          a ++ logLine (env.log 314).now [ascii "Finished hashing, hash is", digest content])) ∨
    ((hasher env fs u t).next = none ∧
      (∀ p d ok, Event.writeFile p d ok ∉ (hasher env fs u t).trace) ∧
      (∀ o n ok, Event.rename o n ok ∉ (hasher env fs u t).trace) ∧
      (∀ g, Event.go g ∉ (hasher env fs u t).trace))) := by
  have h1 := statusPath_ne_logPath t
  have h2 := jobFile_ne_logPath t
  unfold hasher
  simp only [downloadLog_snd]
  cases hr : readFile (downloadLog (env.log 291) fs t [ascii "Hashing ", u]).1
      (filepath.Join [filepath.Join [ascii "files", ascii "tmp", strconv.FormatInt t],
        ascii "file"]) (env.fault 296) with
  | error err =>
    simp only [downloadLog_other _ _ _ _ _ h1, true_and]
    right; simp
  | ok content =>
    have hc : fs (jobFile t) = some content := by
      have := readFile_ok hr
      rwa [show filepath.Join [filepath.Join [ascii "files", ascii "tmp", strconv.FormatInt t],
        ascii "file"] = jobFile t from rfl, downloadLog_other _ _ _ _ _ h2] at this
    rcases env.fault 305 with _ | e2
    · simp only [downloadLog_other _ _ _ _ _ h1, true_and]
      left
      refine ⟨content, _, _, hc, ?_, rfl, rfl, rfl, ?_⟩
      · rw [downloadLog_other _ _ _ _ _ h2, downloadLog_other _ _ _ _ _ h2]
        exact hc
      · intro hok
        exact ⟨_, jobLog_downloadLog_ok _ _ _ _ hok⟩
    · simp only [downloadLog_other _ _ _ _ _ h1, true_and]
      right; simp

/-- What mover leaves behind. -/
theorem mover_cases (env : Env) (fs : FS) (u : Bytes) (t : Int) (h : Bytes) (hh : HexString h) :
    (mover env fs u t h).next = none ∧
    ((∃ content w4 w5 ok,
      fs (jobFile t) = some content ∧
      (mover env fs u t h).trace =
        [Event.log [ascii "Moving to ", destination u h] w4,
          Event.mkdirAll (filepath.Join [ascii "files", h]) true,
          Event.rename (jobFile t) (destination u h) true,
          Event.writeFile (statusPath (strconv.FormatInt t)) (destination u h) ok] ++
        (if ok then [Event.log [ascii "Finished"] w5, Event.dec (ascii "downloads_active")]
          else []) ∧
      (mover env fs u t h).fs (destination u h) = some content ∧
      (ok = true →
        (mover env fs u t h).fs (statusPath (strconv.FormatInt t)) =
          some (destination u h))) ∨
    ((∀ p d ok, Event.writeFile p d ok ∉ (mover env fs u t h).trace) ∧
      (∀ o n, Event.rename o n true ∉ (mover env fs u t h).trace) ∧
      (mover env fs u t h).fs (statusPath (strconv.FormatInt t)) =
        fs (statusPath (strconv.FormatInt t)))) := by
  have h1 := statusPath_ne_logPath t
  have h2 := jobFile_ne_logPath t
  have h3 := statusPath_ne_jobFile t
  have h4 := destination_ne_logPath u h t hh
  have h5 := destination_ne_statusPath u h t hh
  unfold mover
  simp only [downloadLog_snd]
  rcases env.fault 336 with _ | e1
  · cases hr : rename (downloadLog (env.log 334) fs t [ascii "Moving to ", destination u h]).1
        (jobFile t) (destination u h) (env.fault 343) with
    | error err =>
      have hr2 : rename (downloadLog (env.log 334) fs t [ascii "Moving to ",
          filepath.Join [filepath.Join [ascii "files", h],
            url.QueryEscape (strings.Replace (strings.Replace u (chr ':') (chr '-')) (chr '/')
              (chr '_'))]]).1
          (filepath.Join [filepath.Join [ascii "files", ascii "tmp", strconv.FormatInt t],
            ascii "file"])
          (filepath.Join [filepath.Join [ascii "files", h],
            url.QueryEscape (strings.Replace (strings.Replace u (chr ':') (chr '-')) (chr '/')
              (chr '_'))]) (env.fault 343) = .error err := hr
      simp only [hr2, downloadLog_other _ _ _ _ _ h1, true_and]
      right; simp
    | ok fs1 =>
      have hr2 : rename (downloadLog (env.log 334) fs t [ascii "Moving to ",
          filepath.Join [filepath.Join [ascii "files", h],
            url.QueryEscape (strings.Replace (strings.Replace u (chr ':') (chr '-')) (chr '/')
              (chr '_'))]]).1
          (filepath.Join [filepath.Join [ascii "files", ascii "tmp", strconv.FormatInt t],
            ascii "file"])
          (filepath.Join [filepath.Join [ascii "files", h],
            url.QueryEscape (strings.Replace (strings.Replace u (chr ':') (chr '-')) (chr '/')
              (chr '_'))]) (env.fault 343) = .ok fs1 := hr
      obtain ⟨d, hd1, hd2, hd3⟩ := rename_ok hr
      rw [downloadLog_other _ _ _ _ _ h2] at hd1
      have hst : fs1 (statusPath (strconv.FormatInt t)) = fs (statusPath (strconv.FormatInt t)) := by
        rw [hd3 _ h3 (Ne.symm h5), downloadLog_other _ _ _ _ _ h1]
      simp only [hr2]
      rcases env.fault 351 with _ | e3
      · simp only [true_and]
        left
        refine ⟨d, _, _, true, hd1, rfl, ?_, ?_⟩
        · rw [downloadLog_other _ _ _ _ _ h4]
          show (fs1.write (statusPath (strconv.FormatInt t)) (destination u h)) (destination u h) = _
          simp only [FS.write, h5, if_false]
          exact hd2
        · intro _
          rw [downloadLog_other _ _ _ _ _ h1]
          show (fs1.write (statusPath (strconv.FormatInt t)) (destination u h))
            (statusPath (strconv.FormatInt t)) = _
          simp [FS.write]
      · simp only [true_and]
        left
        refine ⟨d, _, false, false, hd1, rfl, ?_, fun hf => absurd hf (by decide)⟩
        rcases env.written 351 with _ | n
        · exact hd2
        · show (fs1.write (statusPath (strconv.FormatInt t)) _) (destination u h) = _
          simp only [FS.write, h5, if_false]
          exact hd2
  · simp only [downloadLog_other _ _ _ _ _ h1, true_and]
    right; simp

/-- The executions of the pipeline: either every step up to the rename
succeeded and the trace is the success trace, or no status file is written
and nothing is moved. -/
theorem runJob_cases (env : Env) (fs : FS) (u : Bytes) (t : Int) :
    (∃ content copied w1 w2 w3 w4 w5 ok,
      (runJob env fs u t).2 = successTrace u t content copied w1 w2 w3 w4 w5 ok ∧
      (runJob env fs u t).1 (destination u (digest content)) = some content ∧
      (ok = true →
        (runJob env fs u t).1 (statusPath (strconv.FormatInt t)) =
          some (destination u (digest content))) ∧
      client.Get u (env.fault 271) = .ok () ∧
      w3 = (env.log 314).ok ∧
      ((env.log 314).ok = true →
        ∃ a b, jobLog (runJob env fs u t).1 t =
          a ++ logLine (env.log 314).now [ascii "Finished hashing, hash is", digest content] ++
            b)) ∨
    ((∀ p d ok, Event.writeFile p d ok ∉ (runJob env fs u t).2) ∧
      (∀ o n, Event.rename o n true ∉ (runJob env fs u t).2) ∧
      (runJob env fs u t).1 (statusPath (strconv.FormatInt t)) =
        fs (statusPath (strconv.FormatInt t))) := by
  have hL := loader_status env fs u t
  unfold runJob
  simp only [runFrom, runTask]
  rcases loader_cases env fs u t with ⟨copied, w1, hget, htr1, hn1⟩ | ⟨hn1, hw1, hr1, _⟩
  · simp only [hn1, runTask]
    obtain ⟨hH, hcase⟩ := hasher_cases env (loader env fs u t).fs u t
    rcases hcase with ⟨content, w2, w3, _, hfile, htr2, hn2, hw3, hlog⟩ | ⟨hn2, hw2, hr2, _⟩
    · simp only [hn2, runTask]
      obtain ⟨hn3, hcase3⟩ := mover_cases env (hasher env (loader env fs u t).fs u t).fs u t
        (digest content) (digest_hexString content)
      simp only [hn3]
      rcases hcase3 with ⟨c2, w4, w5, ok, hc2, htr3, hdest, hst⟩ | ⟨hw3, hr3, hst⟩
      · left
        have hcc : c2 = content := by
          rw [hfile] at hc2; exact (Option.some.inj hc2).symm
        subst hcc
        obtain ⟨x, hx⟩ := mover_log env (hasher env (loader env fs u t).fs u t).fs u t
          (digest c2) (digest_hexString c2)
        refine ⟨c2, copied, w1, w2, w3, w4, w5, ok, ?_, hdest, hst, hget, ?_, ?_⟩
        · rw [htr1, htr2, htr3]
          simp [successTrace]
        · exact hw3
        · intro hok
          obtain ⟨a, ha⟩ := hlog hok
          exact ⟨a, x, by rw [hx, ha]⟩
      · right
        refine ⟨?_, ?_, ?_⟩
        · intro p d ok hm
          rw [htr1, htr2] at hm
          simp only [List.mem_append] at hm
          rcases hm with hm | hm | hm
          · simp at hm
          · simp at hm
          · exact hw3 p d ok hm
        · intro o n hm
          rw [htr1, htr2] at hm
          simp only [List.mem_append] at hm
          rcases hm with hm | hm | hm
          · simp at hm
          · simp at hm
          · exact hr3 o n hm
        · rw [hst, hH, hL]
    · simp only [hn2]
      right
      refine ⟨?_, ?_, ?_⟩
      · intro p d ok hm
        rw [htr1] at hm
        simp only [List.mem_append] at hm
        rcases hm with hm | hm
        · simp at hm
        · exact hw2 p d ok hm
      · intro o n hm
        rw [htr1] at hm
        simp only [List.mem_append] at hm
        rcases hm with hm | hm
        · simp at hm
        · exact hr2 o n true hm
      · rw [hH, hL]
  · simp only [hn1]
    right
    exact ⟨hw1, fun o n => hr1 o n true, hL⟩

/-- When mover is started in an execution of the pipeline, the GET request
accepted the URL, the digest handed to mover is the digest of the fetched
file, and the rest of the execution is mover on the state hasher left. -/
theorem runJob_started (env : Env) (fs : FS) (u : Bytes) (t : Int) (h : Bytes)
    (hgo : Event.go (Goroutine.mover u t h) ∈ (runJob env fs u t).2) :
    client.Get u (env.fault 271) = .ok () ∧
    ∃ content fsH pre,
      h = digest content ∧
      (runJob env fs u t).2 = pre ++ (mover env fsH u t h).trace ∧
      (runJob env fs u t).1 = (mover env fsH u t h).fs ∧
      (∀ p d ok, Event.writeFile p d ok ∉ pre) ∧
      (∀ o n ok, Event.rename o n ok ∉ pre) := by
  unfold runJob at hgo ⊢
  simp only [runFrom, runTask] at hgo ⊢
  rcases loader_cases env fs u t with ⟨copied, w1, hget, htr1, hn1⟩ | ⟨hn1, _, _, hg1⟩
  · simp only [hn1, runTask] at hgo ⊢
    obtain ⟨_, hcase⟩ := hasher_cases env (loader env fs u t).fs u t
    rcases hcase with ⟨content, w2, w3, _, _, htr2, hn2, _, _⟩ | ⟨hn2, _, _, hg2⟩
    · simp only [hn2, runTask] at hgo ⊢
      obtain ⟨hn3, _⟩ := mover_cases env (hasher env (loader env fs u t).fs u t).fs u t
        (digest content) (digest_hexString content)
      simp only [hn3] at hgo ⊢
      have hh : h = digest content := by
        rw [htr1, htr2] at hgo
        simp only [List.mem_append] at hgo
        rcases hgo with hgo | hgo | hgo
        · simp at hgo
        · simp at hgo; exact hgo
        · exact absurd hgo ((mover_first env _ u t (digest content)).2.1 _)
      subst hh
      refine ⟨hget, content, (hasher env (loader env fs u t).fs u t).fs,
        (loader env fs u t).trace ++ (hasher env (loader env fs u t).fs u t).trace, rfl, ?_, rfl,
        ?_, ?_⟩
      · simp only [List.append_assoc]
      · intro p d ok hm
        rw [htr1, htr2] at hm
        simp at hm
      · intro o n ok hm
        rw [htr1, htr2] at hm
        simp at hm
    · simp only [hn2] at hgo
      rw [htr1] at hgo
      simp only [List.mem_append] at hgo
      rcases hgo with hgo | hgo
      · simp at hgo
      · exact absurd hgo (hg2 _)
  · simp only [hn1] at hgo
    exact absurd hgo (hg1 _)

/-- A URL string that the GET request accepts is none of "", "." and "..",
so its escaped form is a plain path element. -/
theorem Get_plain (u : Bytes) (fault : Option Bytes) (h : client.Get u fault = .ok ()) :
    Plain (escapedurl u) := by
  have e1 : ∀ f, ∃ e, client.Get [] f = .error e := fun _ => ⟨_, rfl⟩
  have e2 : ∀ f, ∃ e, client.Get (ascii ".") f = .error e := fun _ => ⟨_, rfl⟩
  have e3 : ∀ f, ∃ e, client.Get (ascii "..") f = .error e := fun _ => ⟨_, rfl⟩
  apply escapedurl_plain
  · rintro rfl
    obtain ⟨e, he⟩ := e1 fault
    rw [he] at h; cases h
  · rintro rfl
    obtain ⟨e, he⟩ := e2 fault
    rw [he] at h; cases h
  · rintro rfl
    obtain ⟨e, he⟩ := e3 fault
    rw [he] at h; cases h

/-! ## Properties of the handlers and of the pipeline -/

/-- C1 (the code at the failing input): when directory creation, file
creation and the GET request succeed but io.Copy of the response body
breaks off with an error, loader records no error in the JobLog, appends
"Finished loading" and starts hasher all the same; the pipeline then runs
to the done marker over the truncated payload "A". -/
theorem loader_ignores_copy_error :
    (loader copyFailEnv FS.empty exampleURL 1).next = some (Goroutine.hasher exampleURL 1) ∧
    (loader copyFailEnv FS.empty exampleURL 1).trace =
      [Event.mkdirAll (ascii "files/tmp/1") true, Event.create (ascii "files/tmp/1/file") true,
        Event.get exampleURL true, Event.copyBody (ascii "files/tmp/1/file") false,
        Event.log [ascii "Finished loading ", exampleURL] true,
        Event.go (Goroutine.hasher exampleURL 1)] ∧
    (loader copyFailEnv FS.empty exampleURL 1).fs (ascii "files/tmp/1/log") =
      some (ascii "T  --  [Finished loading  http://example.com/a.bin]\n") ∧
    (runJob copyFailEnv FS.empty exampleURL 1).1 (ascii "files/tmp/1/done") =
      some (ascii "files/" ++ digest (ascii "A") ++ ascii "/http-__example.com_a.bin") := by
  decide

/-- C2 (counterexample): two different URLs, one with "/" where the other
has "_", get the same escaped filename and, for the same digest, the same
destination. -/
theorem escapedurl_collision :
    ascii "http://example.com/a/b" ≠ ascii "http://example.com/a_b" ∧
    escapedurl (ascii "http://example.com/a/b") = escapedurl (ascii "http://example.com/a_b") ∧
    destination (ascii "http://example.com/a/b") (digest (ascii "ABC")) =
      destination (ascii "http://example.com/a_b") (digest (ascii "ABC")) := by
  decide

/-- C2 (amended): two source URLs get the same escaped filename exactly
when they are equal after the two replacements (':' by '-', '/' by '_');
url.QueryEscape itself loses nothing. -/
theorem escapedurl_eq_iff_replaced (u v : Bytes) :
    escapedurl u = escapedurl v ↔
      strings.Replace (strings.Replace u (chr ':') (chr '-')) (chr '/') (chr '_') =
        strings.Replace (strings.Replace v (chr ':') (chr '-')) (chr '/') (chr '_') :=
  escapedurl_eq_iff u v

/-- C3 (counterexample): percent-decoding the escaped filename of
http://example.com/a.bin gives http-__example.com_a.bin, not the URL. -/
theorem unescape_not_original :
    url.QueryUnescape (escapedurl exampleURL) = some (ascii "http-__example.com_a.bin") ∧
    url.QueryUnescape (escapedurl exampleURL) ≠ some exampleURL := by
  decide

theorem replace_fixed : ∀ c : Byte,
    ((if (if c = chr ':' then chr '-' else c) = chr '/' then chr '_'
      else (if c = chr ':' then chr '-' else c)) = c) ↔ (c ≠ chr ':' ∧ c ≠ chr '/') := by
  decide

theorem Replace_fixed (u : Bytes) :
    strings.Replace (strings.Replace u (chr ':') (chr '-')) (chr '/') (chr '_') = u ↔
      chr ':' ∉ u ∧ chr '/' ∉ u := by
  induction u with
  | nil => simp [strings.Replace]
  | cons c u ih =>
    simp only [strings.Replace, List.map_cons, List.map_map, List.cons.injEq, List.mem_cons,
      not_or] at ih ⊢
    rw [replace_fixed c]
    rw [ih]
    constructor
    · rintro ⟨⟨h1, h2⟩, h3, h4⟩
      exact ⟨⟨Ne.symm h1, h3⟩, Ne.symm h2, h4⟩
    · rintro ⟨⟨h1, h3⟩, h2, h4⟩
      exact ⟨⟨Ne.symm h1, Ne.symm h2⟩, h3, h4⟩

/-- C3 (amended): percent-decoding the escaped filename succeeds and gives
the URL after the two replacements (':' by '-', '/' by '_'); it gives the
original URL exactly when the URL has no ':' and no '/'. -/
theorem unescape_escapedurl (u : Bytes) :
    url.QueryUnescape (escapedurl u) =
      some (strings.Replace (strings.Replace u (chr ':') (chr '-')) (chr '/') (chr '_')) ∧
    (url.QueryUnescape (escapedurl u) = some u ↔ chr ':' ∉ u ∧ chr '/' ∉ u) := by
  have h : url.QueryUnescape (escapedurl u) =
      some (strings.Replace (strings.Replace u (chr ':') (chr '-')) (chr '/') (chr '_')) :=
    QueryUnescape_QueryEscape _
  refine ⟨h, ?_⟩
  rw [h, Option.some.injEq]
  exact Replace_fixed u

/-- C4: for any source URL the escaped filename that mover computes has no
':' and no '/'. -/
theorem escapedurl_no_colon_no_slash (u : Bytes) :
    chr ':' ∉ escapedurl u ∧ chr '/' ∉ escapedurl u :=
  QueryEscape_clean _

/-- What a successful write of the status file by mover implies: the rename
to the destination succeeded before, and the final state holds the marker
with the destination and the payload at the destination. -/
theorem mover_done (env : Env) (fs : FS) (u : Bytes) (t : Int) (h : Bytes) (hh : HexString h)
    (p d : Bytes) (hm : Event.writeFile p d true ∈ (mover env fs u t h).trace) :
    Event.rename (jobFile t) (destination u h) true ∈ (mover env fs u t h).trace ∧
    (mover env fs u t h).fs (statusPath (strconv.FormatInt t)) = some (destination u h) ∧
    ∃ content, (mover env fs u t h).fs (destination u h) = some content := by
  obtain ⟨_, hcase⟩ := mover_cases env fs u t h hh
  rcases hcase with ⟨content, w4, w5, ok, _, htr, hdest, hst⟩ | ⟨hw, _, _⟩
  · rw [htr] at hm ⊢
    cases ok
    · simp at hm
    · exact ⟨by simp, hst rfl, content, hdest⟩
  · exact absurd hm (hw p d true)

/-- C5: (1) for every digest h (a non-empty string of hex digits) and every
source URL that the GET request of loader accepts, the destination that
mover computes with filepath.Join is the literal "files/" ++ h ++ "/" ++
escaped URL; mover logs it first ("Moving to"), renames workDir/file to it
when the digest directory can be created, and every rename and every write
of workDir/done that mover makes carries it; (2) in every execution of the
pipeline in which mover is started with a digest h, for every URL, the same
holds, and when the marker is written the rename to that literal path
succeeded and the final state holds the marker with that path as content
and the payload at that path; (3) for http://example.com/a.bin the
destination is files/h/http-__example.com_a.bin. -/
theorem mover_destination_literal (env : Env) (fs : FS) (u : Bytes) (t : Int) :
    (∀ h fs2, HexString h → client.Get u (env.fault 271) = .ok () →
      destination u h = ascii "files/" ++ h ++ ascii "/" ++ escapedurl u ∧
      (∃ w rest, (mover env fs2 u t h).trace =
        Event.log [ascii "Moving to ", ascii "files/" ++ h ++ ascii "/" ++ escapedurl u] w ::
          rest) ∧
      (env.fault 336 = none →
        ∃ ok, Event.rename (jobFile t) (ascii "files/" ++ h ++ ascii "/" ++ escapedurl u) ok ∈
          (mover env fs2 u t h).trace) ∧
      (∀ old new ok, Event.rename old new ok ∈ (mover env fs2 u t h).trace →
        new = ascii "files/" ++ h ++ ascii "/" ++ escapedurl u) ∧
      (∀ p d ok, Event.writeFile p d ok ∈ (mover env fs2 u t h).trace →
        p = statusPath (strconv.FormatInt t) ∧
          d = ascii "files/" ++ h ++ ascii "/" ++ escapedurl u) ∧
      (∀ p d, Event.writeFile p d true ∈ (mover env fs2 u t h).trace →
        (mover env fs2 u t h).fs (statusPath (strconv.FormatInt t)) =
          some (ascii "files/" ++ h ++ ascii "/" ++ escapedurl u))) ∧
    (∀ h, Event.go (Goroutine.mover u t h) ∈ (runJob env fs u t).2 →
      HexString h ∧
      destination u h = ascii "files/" ++ h ++ ascii "/" ++ escapedurl u ∧
      (∃ w, Event.log [ascii "Moving to ", ascii "files/" ++ h ++ ascii "/" ++ escapedurl u] w ∈
        (runJob env fs u t).2) ∧
      (∀ old new ok, Event.rename old new ok ∈ (runJob env fs u t).2 →
        new = ascii "files/" ++ h ++ ascii "/" ++ escapedurl u) ∧
      (∀ p d ok, Event.writeFile p d ok ∈ (runJob env fs u t).2 →
        p = statusPath (strconv.FormatInt t) ∧
          d = ascii "files/" ++ h ++ ascii "/" ++ escapedurl u) ∧
      (∀ p d, Event.writeFile p d true ∈ (runJob env fs u t).2 →
        Event.rename (jobFile t) (ascii "files/" ++ h ++ ascii "/" ++ escapedurl u) true ∈
          (runJob env fs u t).2 ∧
        (runJob env fs u t).1 (statusPath (strconv.FormatInt t)) =
          some (ascii "files/" ++ h ++ ascii "/" ++ escapedurl u) ∧
        ∃ content, (runJob env fs u t).1 (ascii "files/" ++ h ++ ascii "/" ++ escapedurl u) =
          some content)) ∧
    (∀ h, HexString h →
      destination exampleURL h = ascii "files/" ++ h ++ ascii "/http-__example.com_a.bin") := by
  have hfun : ∀ h fs2, HexString h → client.Get u (env.fault 271) = .ok () →
      destination u h = ascii "files/" ++ h ++ ascii "/" ++ escapedurl u ∧
      (∃ w rest, (mover env fs2 u t h).trace =
        Event.log [ascii "Moving to ", ascii "files/" ++ h ++ ascii "/" ++ escapedurl u] w ::
          rest) ∧
      (env.fault 336 = none →
        ∃ ok, Event.rename (jobFile t) (ascii "files/" ++ h ++ ascii "/" ++ escapedurl u) ok ∈
          (mover env fs2 u t h).trace) ∧
      (∀ old new ok, Event.rename old new ok ∈ (mover env fs2 u t h).trace →
        new = ascii "files/" ++ h ++ ascii "/" ++ escapedurl u) ∧
      (∀ p d ok, Event.writeFile p d ok ∈ (mover env fs2 u t h).trace →
        p = statusPath (strconv.FormatInt t) ∧
          d = ascii "files/" ++ h ++ ascii "/" ++ escapedurl u) ∧
      (∀ p d, Event.writeFile p d true ∈ (mover env fs2 u t h).trace →
        (mover env fs2 u t h).fs (statusPath (strconv.FormatInt t)) =
          some (ascii "files/" ++ h ++ ascii "/" ++ escapedurl u)) := by
    intro h fs2 hh hget
    have hd := destination_plain u h hh (Get_plain u _ hget)
    obtain ⟨hr, hw⟩ := mover_targets env fs2 u t h
    obtain ⟨hfirst, _, hren⟩ := mover_first env fs2 u t h
    rw [← hd]
    exact ⟨rfl, hfirst, hren, fun old new ok hm => (hr old new ok hm).2, hw,
      fun p d hm => (mover_done env fs2 u t h hh p d hm).2.1⟩
  refine ⟨hfun, ?_, ?_⟩
  · intro h hgo
    obtain ⟨hget, content, fsH, pre, hh, htr, hfs, hpw, hpr⟩ := runJob_started env fs u t h hgo
    have hhex : HexString h := by rw [hh]; exact digest_hexString content
    obtain ⟨hd, ⟨w, rest, hfirst⟩, _, hr, hw, _⟩ := hfun h fsH hhex hget
    rw [htr, hfs]
    refine ⟨hhex, hd, ⟨w, ?_⟩, ?_, ?_, ?_⟩
    · rw [hfirst]; simp
    · intro old new ok hm
      rcases List.mem_append.1 hm with hm | hm
      · exact absurd hm (hpr old new ok)
      · exact hr old new ok hm
    · intro p d ok hm
      rcases List.mem_append.1 hm with hm | hm
      · exact absurd hm (hpw p d ok)
      · exact hw p d ok hm
    · intro p d hm
      rcases List.mem_append.1 hm with hm | hm
      · exact absurd hm (hpw p d true)
      · obtain ⟨h1, h2, h3⟩ := mover_done env fsH u t h hhex p d hm
        rw [hd] at h1 h2 h3
        exact ⟨List.mem_append.2 (Or.inr h1), h2, h3⟩
  · intro h hh
    rw [destination_plain exampleURL h hh (by decide)]
    have : escapedurl exampleURL = ascii "http-__example.com_a.bin" := by decide
    rw [this]
    simp [ascii]

/-- C5 (witness): the scenario of the specification, URL
http://example.com/a.bin with the body "ABC": mover is started with the
digest of "ABC", and the marker and the payload end up at the literal
path. -/
theorem mover_destination_literal_witness :
    HexString (digest (ascii "ABC")) ∧
    Event.go (Goroutine.mover exampleURL 1 (digest (ascii "ABC"))) ∈
      (runJob quietEnv FS.empty exampleURL 1).2 ∧
    Event.writeFile (ascii "files/tmp/1/done")
        (ascii "files/3c01bdbb26f358bab27f267924aa2c9a03fcfdb8/http-__example.com_a.bin") true ∈
      (runJob quietEnv FS.empty exampleURL 1).2 ∧
    destination exampleURL (digest (ascii "ABC")) =
      ascii "files/" ++ digest (ascii "ABC") ++ ascii "/" ++ escapedurl exampleURL ∧
    (Event.rename (jobFile 1)
        (ascii "files/" ++ digest (ascii "ABC") ++ ascii "/" ++ escapedurl exampleURL) true ∈
        (runJob quietEnv FS.empty exampleURL 1).2 ∧
      (runJob quietEnv FS.empty exampleURL 1).1 (statusPath (strconv.FormatInt 1)) =
        some (ascii "files/" ++ digest (ascii "ABC") ++ ascii "/" ++ escapedurl exampleURL) ∧
      ∃ content, (runJob quietEnv FS.empty exampleURL 1).1
        (ascii "files/" ++ digest (ascii "ABC") ++ ascii "/" ++ escapedurl exampleURL) =
          some content) ∧
    (mover quietEnv FS.empty exampleURL 1 (digest (ascii "ABC"))).trace.head? =
      some (Event.log [ascii "Moving to ",
        ascii "files/" ++ digest (ascii "ABC") ++ ascii "/" ++ escapedurl exampleURL] true) :=
  ⟨by decide, by decide, by decide,
    ((mover_destination_literal quietEnv FS.empty exampleURL 1).2.1 (digest (ascii "ABC"))
      (by decide)).2.1,
    ((mover_destination_literal quietEnv FS.empty exampleURL 1).2.1 (digest (ascii "ABC"))
      (by decide)).2.2.2.2.2 (ascii "files/tmp/1/done")
      (ascii "files/3c01bdbb26f358bab27f267924aa2c9a03fcfdb8/http-__example.com_a.bin")
      (by decide),
    by
      obtain ⟨w, rest, h⟩ := ((mover_destination_literal quietEnv FS.empty exampleURL 1).1
        (digest (ascii "ABC")) FS.empty (by decide) rfl).2.1
      rw [h]
      have hw : (mover quietEnv FS.empty exampleURL 1 (digest (ascii "ABC"))).trace.head? =
          some (Event.log [ascii "Moving to ",
            destination exampleURL (digest (ascii "ABC"))] true) := by decide
      rw [h] at hw
      simp only [List.head?_cons, Option.some.injEq, Event.log.injEq] at hw ⊢
      exact ⟨trivial, hw.2⟩⟩

theorem successTrace_done {u : Bytes} {t : Int} {content : Bytes}
    {copied w1 w2 w3 w4 w5 ok : Bool} {p d : Bytes}
    (h : Event.writeFile p d true ∈ successTrace u t content copied w1 w2 w3 w4 w5 ok) :
    ok = true ∧ p = statusPath (strconv.FormatInt t) ∧ d = destination u (digest content) := by
  cases ok <;> simp [successTrace] at h
  exact ⟨rfl, h.1, h.2⟩

/-- C6: in every execution of the pipeline that writes the done marker,
there is one content such that the digest that hasher records in the JobLog
(the call downloadLog("Finished hashing, hash is", digest); when that call
can append its line, the final content of workDir/log holds the line with
that digest) and hands to mover is the SHA-1 hex digest of that content, and
that content is what the final state stores at the destination that mover
computed from the digest and the escaped URL, renamed the payload to and
wrote into the marker; that destination is the literal
files/digest/escaped URL. -/
theorem digest_matches_stored (env : Env) (fs : FS) (u : Bytes) (t : Int)
    (hdone : ∃ p d, Event.writeFile p d true ∈ (runJob env fs u t).2) :
    ∃ content,
      Event.log [ascii "Finished hashing, hash is", hex (sha1.Sum content)] (env.log 314).ok ∈
        (runJob env fs u t).2 ∧
      (∀ m w, Event.log (ascii "Finished hashing, hash is" :: m) w ∈ (runJob env fs u t).2 →
        m = [hex (sha1.Sum content)]) ∧
      ((env.log 314).ok = true →
        ∃ a b, jobLog (runJob env fs u t).1 t =
          a ++ logLine (env.log 314).now
            [ascii "Finished hashing, hash is", hex (sha1.Sum content)] ++ b) ∧
      Event.go (Goroutine.mover u t (hex (sha1.Sum content))) ∈ (runJob env fs u t).2 ∧
      (∀ h, Event.go (Goroutine.mover u t h) ∈ (runJob env fs u t).2 →
        h = hex (sha1.Sum content)) ∧
      (∀ o n, Event.rename o n true ∈ (runJob env fs u t).2 →
        n = destination u (hex (sha1.Sum content))) ∧
      (runJob env fs u t).1 (statusPath (strconv.FormatInt t)) =
        some (destination u (hex (sha1.Sum content))) ∧
      (runJob env fs u t).1 (destination u (hex (sha1.Sum content))) = some content ∧
      destination u (hex (sha1.Sum content)) =
        ascii "files/" ++ hex (sha1.Sum content) ++ ascii "/" ++ escapedurl u := by
  obtain ⟨p, d, hm⟩ := hdone
  rcases runJob_cases env fs u t with
    ⟨content, copied, w1, w2, w3, w4, w5, ok, htr, hdest, hst, hget, hw3, hlog⟩ | ⟨hw, _, _⟩
  · rw [htr] at hm
    obtain ⟨hok, _, _⟩ := successTrace_done hm
    subst hok
    subst hw3
    have n1 : ascii "Finished loading " ≠ ascii "Finished hashing, hash is" := by decide
    have n2 : ascii "Hashing " ≠ ascii "Finished hashing, hash is" := by decide
    have n3 : ascii "Moving to " ≠ ascii "Finished hashing, hash is" := by decide
    have n4 : ascii "Finished" ≠ ascii "Finished hashing, hash is" := by decide
    refine ⟨content, ?_, ?_, hlog, ?_, ?_, ?_, ?_, hdest,
      destination_plain u _ (digest_hexString content) (Get_plain u _ hget)⟩
    · rw [htr]; simp [successTrace, digest]
    · intro m w hmem
      rw [htr] at hmem
      simp [successTrace, n1.symm, n2.symm, n3.symm, n4.symm, digest] at hmem
      exact hmem.1
    · rw [htr]; simp [successTrace, digest]
    · intro h hmem
      rw [htr] at hmem
      simp [successTrace, digest] at hmem
      exact hmem
    · intro o n hmem
      rw [htr] at hmem
      simp [successTrace, digest] at hmem
      exact hmem.2
    · exact hst rfl
  · exact absurd hm (hw p d true)

/-- C6 (witness): the scenario of the specification without faults; the
final log holds the line with the digest of "ABC", which is the content at
the destination. -/
theorem digest_matches_stored_witness :
    (∃ p d, Event.writeFile p d true ∈ (runJob quietEnv FS.empty exampleURL 1).2) ∧
    (quietEnv.log 314).ok = true ∧
    jobLog (runJob quietEnv FS.empty exampleURL 1).1 1 =
      ascii "T  --  [Finished loading  http://example.com/a.bin]\n" ++
      ascii "T  --  [Hashing  http://example.com/a.bin]\n" ++
      ascii "T  --  [Finished hashing, hash is 3c01bdbb26f358bab27f267924aa2c9a03fcfdb8]\n" ++
      ascii "T  --  [Moving to  files/3c01bdbb26f358bab27f267924aa2c9a03fcfdb8/http-__example.com_a.bin]\n" ++
      ascii "T  --  [Finished]\n" ∧
    (runJob quietEnv FS.empty exampleURL 1).1
      (ascii "files/3c01bdbb26f358bab27f267924aa2c9a03fcfdb8/http-__example.com_a.bin") =
        some (ascii "ABC") ∧
    ∃ content,
      Event.log [ascii "Finished hashing, hash is", hex (sha1.Sum content)]
        (quietEnv.log 314).ok ∈ (runJob quietEnv FS.empty exampleURL 1).2 ∧
      (∀ m w, Event.log (ascii "Finished hashing, hash is" :: m) w ∈
        (runJob quietEnv FS.empty exampleURL 1).2 → m = [hex (sha1.Sum content)]) ∧
      ((quietEnv.log 314).ok = true →
        ∃ a b, jobLog (runJob quietEnv FS.empty exampleURL 1).1 1 =
          a ++ logLine (quietEnv.log 314).now
            [ascii "Finished hashing, hash is", hex (sha1.Sum content)] ++ b) ∧
      Event.go (Goroutine.mover exampleURL 1 (hex (sha1.Sum content))) ∈
        (runJob quietEnv FS.empty exampleURL 1).2 ∧
      (∀ h, Event.go (Goroutine.mover exampleURL 1 h) ∈
        (runJob quietEnv FS.empty exampleURL 1).2 → h = hex (sha1.Sum content)) ∧
      (∀ o n, Event.rename o n true ∈ (runJob quietEnv FS.empty exampleURL 1).2 →
        n = destination exampleURL (hex (sha1.Sum content))) ∧
      (runJob quietEnv FS.empty exampleURL 1).1 (statusPath (strconv.FormatInt 1)) =
        some (destination exampleURL (hex (sha1.Sum content))) ∧
      (runJob quietEnv FS.empty exampleURL 1).1
        (destination exampleURL (hex (sha1.Sum content))) = some content ∧
      destination exampleURL (hex (sha1.Sum content)) =
        ascii "files/" ++ hex (sha1.Sum content) ++ ascii "/" ++ escapedurl exampleURL :=
  ⟨⟨ascii "files/tmp/1/done",
      ascii "files/3c01bdbb26f358bab27f267924aa2c9a03fcfdb8/http-__example.com_a.bin", by decide⟩,
    by decide, by decide, by decide,
    digest_matches_stored quietEnv FS.empty exampleURL 1
      ⟨ascii "files/tmp/1/done",
        ascii "files/3c01bdbb26f358bab27f267924aa2c9a03fcfdb8/http-__example.com_a.bin",
        by decide⟩⟩

theorem successTrace_no_failure {u : Bytes} {t : Int} {content : Bytes}
    {copied w1 w2 w3 w4 w5 ok : Bool} {e : Event}
    (h : e ∈ successTrace u t content copied w1 w2 w3 w4 w5 ok) : stepFailed e = false := by
  have hall : (successTrace u t content copied w1 w2 w3 w4 w5 ok).all
      (fun e => !stepFailed e) = true := by
    cases ok <;> rfl
  have := List.all_eq_true.1 hall e h
  simpa using this

/-- C7: in every execution of the pipeline over a filesystem state, (1) if
the done marker is written, then the GET request, opening workDir/file,
hashing it, creating the digest directory and the rename of workDir/file
all succeeded earlier in the execution, the marker is workDir/done, its
content is the path the payload was renamed to, and the final state holds
the marker with that content; (2) if a directory creation, the GET request,
opening or hashing the file, or the rename fails, then no write of a done
marker happens, no rename succeeds, and workDir/done is what it was
before. -/
theorem done_marker_after_success (env : Env) (fs : FS) (u : Bytes) (t : Int) :
    (∀ p d, Event.writeFile p d true ∈ (runJob env fs u t).2 →
      p = statusPath (strconv.FormatInt t) ∧
      (∃ h,
        Before (Event.get u true) (Event.writeFile p d true) (runJob env fs u t).2 ∧
        Before (Event.openFile (jobFile t) true) (Event.writeFile p d true)
          (runJob env fs u t).2 ∧
        Before (Event.hashCopy (jobFile t) true) (Event.writeFile p d true)
          (runJob env fs u t).2 ∧
        Before (Event.mkdirAll (filepath.Join [ascii "files", h]) true)
          (Event.writeFile p d true) (runJob env fs u t).2 ∧
        d = destination u h) ∧
      Before (Event.rename (jobFile t) d true) (Event.writeFile p d true)
        (runJob env fs u t).2 ∧
      (runJob env fs u t).1 p = some d) ∧
    (∀ e ∈ (runJob env fs u t).2, stepFailed e = true →
      (∀ p d ok, Event.writeFile p d ok ∉ (runJob env fs u t).2) ∧
      (∀ o n, Event.rename o n true ∉ (runJob env fs u t).2) ∧
      (runJob env fs u t).1 (statusPath (strconv.FormatInt t)) =
        fs (statusPath (strconv.FormatInt t))) := by
  rcases runJob_cases env fs u t with
    ⟨content, copied, w1, w2, w3, w4, w5, ok, htr, hdest, hst, _, _, _⟩ | ⟨hw, hr, hst⟩
  · constructor
    · intro p d hm
      rw [htr] at hm
      obtain ⟨hok, hp, hd⟩ := successTrace_done hm
      subst hok hp hd
      rw [htr]
      refine ⟨rfl, ⟨digest content, ?_, ?_, ?_, ?_, rfl⟩, ?_, ?_⟩
      · exact ⟨2, 14, by decide, rfl, rfl⟩
      · exact ⟨7, 14, by decide, rfl, rfl⟩
      · exact ⟨8, 14, by decide, rfl, rfl⟩
      · exact ⟨12, 14, by decide, rfl, rfl⟩
      · exact ⟨13, 14, by decide, rfl, rfl⟩
      · exact hst rfl
    · intro e he hf
      rw [htr] at he
      rw [successTrace_no_failure he] at hf
      exact absurd hf (by decide)
  · constructor
    · intro p d hm
      exact absurd hm (hw p d true)
    · intro e _ _
      exact ⟨hw, hr, hst⟩

/-- C7 (witness): the scenario of the specification without faults writes
the marker; the same submission with a failing GET request does not. -/
theorem done_marker_after_success_witness :
    (Event.writeFile (ascii "files/tmp/1/done")
        (ascii "files/3c01bdbb26f358bab27f267924aa2c9a03fcfdb8/http-__example.com_a.bin") true ∈
      (runJob quietEnv FS.empty exampleURL 1).2 ∧
      (runJob quietEnv FS.empty exampleURL 1).1 (ascii "files/tmp/1/done") =
        some (ascii "files/3c01bdbb26f358bab27f267924aa2c9a03fcfdb8/http-__example.com_a.bin")) ∧
    (Event.get exampleURL false ∈ (runJob getFailEnv FS.empty exampleURL 1).2 ∧
      stepFailed (Event.get exampleURL false) = true ∧
      (∀ p d ok, Event.writeFile p d ok ∉ (runJob getFailEnv FS.empty exampleURL 1).2) ∧
      (∀ o n, Event.rename o n true ∉ (runJob getFailEnv FS.empty exampleURL 1).2) ∧
      (runJob getFailEnv FS.empty exampleURL 1).1 (statusPath (strconv.FormatInt 1)) =
        FS.empty (statusPath (strconv.FormatInt 1))) :=
  ⟨⟨by decide,
      ((done_marker_after_success quietEnv FS.empty exampleURL 1).1 _ _ (by decide)).2.2.2⟩,
    by decide, by decide,
    (done_marker_after_success getFailEnv FS.empty exampleURL 1).2 (Event.get exampleURL false)
      (by decide) (by decide)⟩

theorem downloadStatus_io (env : Env) (fs : FS) (filename : Bytes) :
    (∀ c, fs (statusPath filename) = some c → env.fault 371 = none →
      downloadStatus env fs filename = Response.redirect (ascii "/" ++ c) 301) ∧
    (∀ l, fs (statusPath filename) = none → fs (logPath filename) = some l →
      env.fault 379 = none → downloadStatus env fs filename = Response.body l) := by
  constructor
  · intro c hc hf
    have hc2 : fs (filepath.Join [filepath.Join [ascii "files", ascii "tmp", filename],
        ascii "done"]) = some c := hc
    simp [downloadStatus, readFile, hf, hc2]
  · intro l hd hl hf
    have hd2 : fs (filepath.Join [filepath.Join [ascii "files", ascii "tmp", filename],
        ascii "done"]) = none := hd
    have hl2 : fs (filepath.Join [filepath.Join [ascii "files", ascii "tmp", filename],
        ascii "log"]) = some l := hl
    unfold downloadStatus readFile
    simp only [hd2, hl2, hf]
    cases env.fault 371 <;> rfl

/-- C8: for every job id and filesystem state, (1) if workDir/done can be
read, downloadStatus answers with a redirect with status 301 to "/"
followed by the content of the marker (and so not with the log); (2) if
workDir/done is absent and workDir/log can be read, the body of the answer
is exactly the content of workDir/log. -/
theorem downloadStatus_redirect_or_log (env : Env) (fs : FS) (filename : Bytes) :
    (∀ c, fs (statusPath filename) = some c → env.fault 371 = none →
      downloadStatus env fs filename = Response.redirect (ascii "/" ++ c) 301) ∧
    (∀ l, fs (statusPath filename) = none → fs (logPath filename) = some l →
      env.fault 379 = none → downloadStatus env fs filename = Response.body l) :=
  downloadStatus_io env fs filename

/-- C8 (witness): the job of the scenario after the whole pipeline (marker
present) and right after the submission (no marker, log present). -/
theorem downloadStatus_redirect_or_log_witness :
    downloadStatus quietEnv (runJob quietEnv FS.empty exampleURL 1).1 (ascii "1") =
      Response.redirect
        (ascii "/" ++
          ascii "files/3c01bdbb26f358bab27f267924aa2c9a03fcfdb8/http-__example.com_a.bin") 301 ∧
    downloadStatus quietEnv (download quietEnv FS.empty (.ok exampleURL) 1).fs (ascii "1") =
      Response.body (ascii "T  --  [Downloading:  http://example.com/a.bin]\n") :=
  ⟨(downloadStatus_redirect_or_log quietEnv (runJob quietEnv FS.empty exampleURL 1).1
      (ascii "1")).1 _ (by decide) (by decide),
    (downloadStatus_redirect_or_log quietEnv
      (download quietEnv FS.empty (.ok exampleURL) 1).fs (ascii "1")).2 _ (by decide) (by decide)
      (by decide)⟩

/-- C9 (counterexample): when the job directory cannot be created while the
submission is logged, download still redirects to the status page, and the
status query right after it answers with the text of the read error, which
is not log content and contains no submission line. -/
theorem status_without_submission_line :
    (download logFailEnv FS.empty (.ok exampleURL) 1).response =
      Response.redirect (ascii "/loading/1") 303 ∧
    (download logFailEnv FS.empty (.ok exampleURL) 1).fs (logPath (ascii "1")) = none ∧
    downloadStatus logFailEnv (download logFailEnv FS.empty (.ok exampleURL) 1).fs
        (strconv.FormatInt 1) =
      Response.body (ascii
        "can not open logfile: %!(EXTRA *os.PathError=open files/tmp/1/log: no such file or directory)") ∧
    ¬ Contains (ascii
        "can not open logfile: %!(EXTRA *os.PathError=open files/tmp/1/log: no such file or directory)")
      (ascii "Downloading: ") := by
  decide

/-- C9 (amended): for any submitted URL that url.Parse accepts, if the log
line of the submission can be appended (the job directory can be created,
workDir/log opened and the line written), no done marker exists for the job
id and the log can be read, then the status query issued right after download returns,
before loader has done anything, answers with the content of workDir/log:
what the log held before followed by the submission line, which is not
empty and contains "Downloading: ", the blank that separates the elements
of the message, and the URL. -/
theorem status_after_submission (env : Env) (fs : FS) (u : Bytes) (t : Int)
    (h1 : (env.log 209).mkdirErr = none) (h2 : (env.log 209).openErr = none)
    (hw : (env.log 209).writeErr = none)
    (h3 : fs (statusPath (strconv.FormatInt t)) = none) (h4 : env.fault 379 = none) :
    (download env fs (.ok u) t).response =
      Response.redirect (ascii "/loading/" ++ strconv.FormatInt t) 303 ∧
    (download env fs (.ok u) t).next = some (Goroutine.loader u t) ∧
    ∃ body,
      downloadStatus env (download env fs (.ok u) t).fs (strconv.FormatInt t) =
        Response.body body ∧
      body = (fs (logPath (strconv.FormatInt t))).getD [] ++
        logLine (env.log 209).now [ascii "Downloading: ", u] ∧
      body ≠ [] ∧
      Contains body (ascii "Downloading: " ++ ascii " " ++ u) := by
  refine ⟨rfl, rfl, _, ?_, rfl, ?_, ?_⟩
  · have hs : (download env fs (.ok u) t).fs (statusPath (strconv.FormatInt t)) = none := by
      show (downloadLog (env.log 209) fs t [ascii "Downloading: ", u]).1 _ = none
      rw [downloadLog_other _ _ _ _ _ (statusPath_ne_logPath t), h3]
    have hl : (download env fs (.ok u) t).fs (logPath (strconv.FormatInt t)) =
        some ((fs (logPath (strconv.FormatInt t))).getD [] ++
          logLine (env.log 209).now [ascii "Downloading: ", u]) := by
      show (downloadLog (env.log 209) fs t [ascii "Downloading: ", u]).1 _ = _
      exact downloadLog_log _ _ _ _ h1 h2 hw
    exact (downloadStatus_io env _ _).2 _ hs hl h4
  · simp [logLine, ascii]
  · refine ⟨(fs (logPath (strconv.FormatInt t))).getD [] ++ (env.log 209).now ++ ascii " " ++
      ascii " -- " ++ ascii " " ++ ascii "[", ascii "]" ++ ascii "\n", ?_⟩
    simp [logLine, strings.Join, List.append_assoc]

/-- C9 (witness): the scenario of the specification on an empty
filesystem. -/
theorem status_after_submission_witness :
    (quietEnv.log 209).mkdirErr = none ∧ (quietEnv.log 209).openErr = none ∧
    (quietEnv.log 209).writeErr = none ∧
    FS.empty (statusPath (strconv.FormatInt 1)) = none ∧ quietEnv.fault 379 = none ∧
    ∃ body,
      downloadStatus quietEnv (download quietEnv FS.empty (.ok exampleURL) 1).fs
        (strconv.FormatInt 1) = Response.body body ∧
      body = (FS.empty (logPath (strconv.FormatInt 1))).getD [] ++
        logLine (quietEnv.log 209).now [ascii "Downloading: ", exampleURL] ∧
      body ≠ [] ∧
      Contains body (ascii "Downloading: " ++ ascii " " ++ exampleURL) :=
  ⟨rfl, rfl, rfl, rfl, rfl,
    (status_after_submission quietEnv FS.empty exampleURL 1 rfl rfl rfl rfl rfl).2.2⟩

theorem upload_outfile (h filename : Bytes) (hh : HexString h) :
    path.Join [path.Join [folder, h], filename] = path.Join [ascii "files", h, filename] := by
  have hd : path.Join [folder, h] = ascii "files/" ++ h := destdir_eq h hh
  rw [hd, Join_two _ _ (by simp [ascii]), Join_three _ _ _ (by decide)]
  congr 1

/-- C10 (the code at the failing input): the upload of "ABC" under the name
index.html succeeds, stores the bytes at files/digest/index.html and
returns that path, but serving the returned path through the files handler
answers with a redirect to "./", not with the bytes; the same handler on
the route with the trailing slash serves them. -/
theorem upload_index_html_not_served :
    (upload quietEnv FS.empty ⟨.ok (ascii "index.html", ascii "ABC"), [], ascii "h"⟩).response =
      Response.body
        (ascii "http://h/files/3c01bdbb26f358bab27f267924aa2c9a03fcfdb8/index.html\n") ∧
    (upload quietEnv FS.empty ⟨.ok (ascii "index.html", ascii "ABC"), [], ascii "h"⟩).fs
        (ascii "files/3c01bdbb26f358bab27f267924aa2c9a03fcfdb8/index.html") =
      some (ascii "ABC") ∧
    (files (upload quietEnv FS.empty ⟨.ok (ascii "index.html", ascii "ABC"), [], ascii "h"⟩).fs
        (ascii "/files/3c01bdbb26f358bab27f267924aa2c9a03fcfdb8/index.html")
        (digest (ascii "ABC")) (ascii "index.html")).1 =
      Response.redirect (ascii "./") 301 ∧
    (files (upload quietEnv FS.empty ⟨.ok (ascii "index.html", ascii "ABC"), [], ascii "h"⟩).fs
        (ascii "/files/3c01bdbb26f358bab27f267924aa2c9a03fcfdb8/index.html/")
        (digest (ascii "ABC")) (ascii "index.html")).1 =
      Response.body (ascii "ABC") := by
  decide

/-- The round trip of a direct upload where http.ServeFile serves the file:
upload stores the bytes at path.Join("files", SHA-1 hex digest of the
content, filename), which is the literal files/digest/filename when the
filename is a plain path element, and returns that path; the files handler
with hash = the digest and filename = the uploaded name answers with
exactly the uploaded bytes for every request path without a ".." element
that does not end in "/index.html". -/
theorem upload_roundtrip (env : Env) (fs : FS) (req : UploadRequest) (filename data : Bytes)
    (hreq : req.formFile = .ok (filename, data)) (h149 : env.fault 149 = none)
    (h158 : env.fault 158 = none) (h166 : env.fault 166 = none) :
    (upload env fs req).fs (path.Join [ascii "files", hex (sha1.Sum data), filename]) =
      some data ∧
    (upload env fs req).response =
      Response.body ((if req.proto = [] then ascii "http" else req.proto) ++ ascii "://" ++
        req.host ++ ascii "/" ++ path.Join [ascii "files", hex (sha1.Sum data), filename] ++
        ascii "\n") ∧
    (∀ urlPath, containsDotDot urlPath = false →
      strings.HasSuffix urlPath (ascii "/index.html") = false →
      (files (upload env fs req).fs urlPath (hex (sha1.Sum data)) filename).1 =
        Response.body data) ∧
    (Plain filename →
      path.Join [ascii "files", hex (sha1.Sum data), filename] =
        ascii "files/" ++ hex (sha1.Sum data) ++ ascii "/" ++ filename) := by
  have hh : HexString (hex (sha1.Sum data)) := digest_hexString data
  have ho := upload_outfile (hex (sha1.Sum data)) filename hh
  have hfs : (upload env fs req).fs =
      fs.write (path.Join [ascii "files", hex (sha1.Sum data), filename]) data := by
    unfold upload
    simp only [hreq, h149, h158, h166, ho]
  have hresp : (upload env fs req).response =
      Response.body ((if req.proto = [] then ascii "http" else req.proto) ++ ascii "://" ++
        req.host ++ ascii "/" ++ path.Join [ascii "files", hex (sha1.Sum data), filename] ++
        ascii "\n") := by
    unfold upload
    simp only [hreq, h149, h158, h166, ho]
  refine ⟨?_, hresp, ?_, ?_⟩
  · rw [hfs]; simp [FS.write]
  · intro urlPath hdd hp
    rw [hfs]
    simp [files, ServeFile, hdd, hp, FS.write]
  · intro hpl
    have := Clean_join [ascii "files", hex (sha1.Sum data), filename]
      (by
        intro e hm; simp at hm
        rcases hm with hm | hm | hm <;> subst hm <;> first | decide | exact hh.plain | exact hpl)
      (by simp)
    rw [Join_three _ _ _ (by decide)]
    simp only [strings.Join] at this
    simp only [List.append_assoc] at this ⊢
    rw [this]
    simp [ascii, path.sep, chr]

/-- The round trip of the upload of "ABC" under the name a.bin. -/
theorem upload_roundtrip_witness :
    (files (upload quietEnv FS.empty ⟨.ok (ascii "a.bin", ascii "ABC"), [], ascii "h"⟩).fs
        (ascii "/files/3c01bdbb26f358bab27f267924aa2c9a03fcfdb8/a.bin")
        (hex (sha1.Sum (ascii "ABC"))) (ascii "a.bin")).1 = Response.body (ascii "ABC") ∧
    path.Join [ascii "files", hex (sha1.Sum (ascii "ABC")), ascii "a.bin"] =
      ascii "files/" ++ hex (sha1.Sum (ascii "ABC")) ++ ascii "/" ++ ascii "a.bin" :=
  ⟨(upload_roundtrip quietEnv FS.empty ⟨.ok (ascii "a.bin", ascii "ABC"), [], ascii "h"⟩
      (ascii "a.bin") (ascii "ABC") rfl rfl rfl rfl).2.2.1 _ (by decide) (by decide),
    (upload_roundtrip quietEnv FS.empty ⟨.ok (ascii "a.bin", ascii "ABC"), [], ascii "h"⟩
      (ascii "a.bin") (ascii "ABC") rfl rfl rfl rfl).2.2.2 (by decide)⟩
